import Mathlib

/-! The spin-based reader/writer lock `zdb2::rwlock` of `src/zdb2/util/rwlock.hpp`.

Shallow embedding of the lock and of its two scoped guards.

* `int` values are `Int`s kept in the 32-bit range by `wrapInt`; `unsigned int`
  values are `Nat`s reduced modulo `2 ^ 32`.
* `compare_exchange_weak` may fail spuriously; every function that executes one takes the
  outcome of that choice as an argument.
* The first part models each member function executed without interference (one client
  at a time).  The second part splits the member functions into their atomic steps and
  interleaves the steps of several clients.
-/

namespace zdb2

/-! ## Machine integers -/

/-- Largest `int`. -/
def INT_MAX : Int := 2147483647

/-- Smallest `int`. -/
def INT_MIN : Int := -2147483648

/-- Number of `unsigned int` values, `2 ^ 32`. -/
def UINT_MOD : Nat := 4294967296

/-- Two's-complement reduction of an integer to the range of `int`.  It is the result of
`std::atomic_int` arithmetic, and the result compilers produce for `count + 1` on an `int`
(at `INT_MAX` the C++ standard leaves that addition undefined). -/
def wrapInt (z : Int) : Int := (z + 2147483648) % 4294967296 - 2147483648

/-- Increment of an `unsigned int`. -/
def uincr (n : Nat) : Nat := (n + 1) % UINT_MOD

/-- Decrement of an `unsigned int`. -/
def udecr (n : Nat) : Nat := (n + (UINT_MOD - 1)) % UINT_MOD

/-- The value lies in the range of `int`. -/
def IsInt (z : Int) : Prop := INT_MIN ≤ z ∧ z ≤ INT_MAX

instance (z : Int) : Decidable (IsInt z) := by unfold IsInt; infer_instance

/-! ## The lock object -/

/-- Data members of `class rwlock` (lines 115-123). -/
structure rwlock where
  /-- Field `std::atomic_uint m_write_wait_count`: wait for write thread count. -/
  m_write_wait_count : Nat
  /-- Field `std::atomic_int m_lock_count`: -1 write, 0 idle, >0 shared read. -/
  m_lock_count : Int
  /-- Field `const bool m_is_write_first`. -/
  m_is_write_first : Bool
  deriving DecidableEq, Repr

/-- Constructor `rwlock(bool is_write_first)` (lines 27-32). -/
def rwlock.new (is_write_first : Bool) : rwlock :=
  { m_is_write_first := is_write_first, m_write_wait_count := 0, m_lock_count := 0 }

/-- Constructor call without argument: the default argument is `is_write_first = true`
(line 27). -/
def rwlock.new_default : rwlock := rwlock.new true

/-- Member `std::atomic_int::compare_exchange_weak(expected, desired)` on an object holding
`obj`: the result and the object's new value.  The exchange happens when the object holds
`expected` and the operation does not fail spuriously. -/
def compare_exchange_weak (spurious : Bool) (obj expected desired : Int) : Bool × Int :=
  if obj = expected ∧ spurious = false then (true, desired) else (false, obj)

/-- Method `rwlock::try_lock_read` (lines 34-44), run without interference. -/
def rwlock.try_lock_read (spurious : Bool) (l : rwlock) : Bool × rwlock :=
  let count := l.m_lock_count
  if count = -1 ∨ (l.m_is_write_first = true ∧ l.m_write_wait_count > 0) then
    (false, l)
  else
    let r := compare_exchange_weak spurious l.m_lock_count count (wrapInt (count + 1))
    (r.1, { l with m_lock_count := r.2 })

/-- What a spin loop does after a failed attempt (lines 50-61 and 87-98). -/
inductive Pause where
  /-- Call `std::this_thread::yield()`. -/
  | yield : Pause
  /-- Call `std::this_thread::sleep_for(std::chrono::milliseconds(ms))`. -/
  | sleep_for (ms : Nat) : Pause
  deriving DecidableEq, Repr

/-- Body of both spin loops, for loop counter `k`. -/
def backoff (k : Nat) : Pause :=
  if k < 16 then Pause.yield
  else if k < 32 then Pause.sleep_for 0
  else Pause.sleep_for 1

/-- Loop of `rwlock::lock_read` (lines 48-62) from its attempt number `n`, with loop counter
`k` (an `unsigned int`), run without interference.  `spur n` tells whether the
`compare_exchange_weak` of attempt `n` fails spuriously.  The result is the lock and the
pauses taken; `none` when the fuel runs out before an attempt succeeds. -/
def rwlock.lock_read_loop (spur : Nat → Bool) : Nat → Nat → Nat → rwlock →
    Option (rwlock × List Pause)
  | 0, _, _, _ => none
  | fuel + 1, n, k, l =>
    match l.try_lock_read (spur n) with
    | (true, l1) => some (l1, [])
    | (false, l1) =>
      (rwlock.lock_read_loop spur fuel (n + 1) (uincr k) l1).map
        (fun r => (r.1, backoff k :: r.2))

/-- Method `rwlock::lock_read` (lines 46-63). -/
def rwlock.lock_read (spur : Nat → Bool) (fuel : Nat) (l : rwlock) :
    Option (rwlock × List Pause) :=
  rwlock.lock_read_loop spur fuel 0 0 l

/-- The exception `std::runtime_error` thrown by `unlock_read`. -/
inductive Exn where
  /-- Raised with "exception : read lock count is less than 0,check whether
  lock_read/unlock_read missing match." -/
  | runtime_error : Exn
  deriving DecidableEq, Repr

/-- Method `rwlock::unlock_read` (lines 65-73), run without interference: the lock after the
call and the exception thrown, if any.  `debug` tells whether `_DEBUG` or `DEBUG` is
defined. -/
def rwlock.unlock_read (debug : Bool) (l : rwlock) : Option Exn × rwlock :=
  let l1 := { l with m_lock_count := wrapInt (l.m_lock_count - 1) }
  if debug = true ∧ l1.m_lock_count < 0 then (some Exn.runtime_error, l1) else (none, l1)

/-- Method `rwlock::try_lock_write` (lines 75-80), run without interference. -/
def rwlock.try_lock_write (spurious : Bool) (l : rwlock) : Bool × rwlock :=
  let count : Int := 0
  let r := compare_exchange_weak spurious l.m_lock_count count (-1)
  (r.1, { l with m_lock_count := r.2 })

/-- Loop of `rwlock::lock_write` (lines 85-99), as `rwlock.lock_read_loop`. -/
def rwlock.lock_write_loop (spur : Nat → Bool) : Nat → Nat → Nat → rwlock →
    Option (rwlock × List Pause)
  | 0, _, _, _ => none
  | fuel + 1, n, k, l =>
    match l.try_lock_write (spur n) with
    | (true, l1) => some (l1, [])
    | (false, l1) =>
      (rwlock.lock_write_loop spur fuel (n + 1) (uincr k) l1).map
        (fun r => (r.1, backoff k :: r.2))

/-- Method `rwlock::lock_write` (lines 82-101), run without interference. -/
def rwlock.lock_write (spur : Nat → Bool) (fuel : Nat) (l : rwlock) :
    Option (rwlock × List Pause) :=
  let l1 := { l with m_write_wait_count := uincr l.m_write_wait_count }
  (rwlock.lock_write_loop spur fuel 0 0 l1).map
    (fun r => ({ r.1 with m_write_wait_count := udecr r.1.m_write_wait_count }, r.2))

/-- Method `rwlock::unlock_write` (lines 103-106). -/
def rwlock.unlock_write (l : rwlock) : rwlock :=
  { l with m_lock_count := 0 }

/-! ## Scoped guards -/

/-- Member functions of `rwlock`. -/
inductive Call where
  | try_lock_read | lock_read | unlock_read | try_lock_write | lock_write | unlock_write
  deriving DecidableEq, Repr

/-- How a guarded scope ends. -/
inductive Outcome (ε α : Type) where
  /-- The critical section returned a value. -/
  | returned (a : α) : Outcome ε α
  /-- An error thrown by the critical section propagates out of the scope. -/
  | thrown (e : ε) : Outcome ε α
  /-- The guard's destructor threw: destructors are `noexcept`, so `std::terminate` runs. -/
  | terminated : Outcome ε α
  deriving DecidableEq, Repr

/-- What is left after a guarded scope. -/
structure ScopeResult (σ ε α : Type) where
  /-- The lock after scope exit. -/
  lock : rwlock
  /-- The data of the critical section after scope exit. -/
  data : σ
  /-- How the scope ended. -/
  outcome : Outcome ε α
  /-- Calls made on the lock by the guard, in order. -/
  calls : List Call

/-- Constructor `rlock_guard(rwlock&)` (lines 132-135): the lock afterwards and the call made. -/
def rlock_guard.ctor (spur : Nat → Bool) (fuel : Nat) (l : rwlock) : Option (rwlock × Call) :=
  (l.lock_read spur fuel).map (fun r => (r.1, Call.lock_read))

/-- Destructor `~rlock_guard()` (lines 136-139). -/
def rlock_guard.dtor (debug : Bool) (l : rwlock) : (Option Exn × rwlock) × Call :=
  (l.unlock_read debug, Call.unlock_read)

/-- Constructor `wlock_guard(rwlock&)` (lines 153-156). -/
def wlock_guard.ctor (spur : Nat → Bool) (fuel : Nat) (l : rwlock) : Option (rwlock × Call) :=
  (l.lock_write spur fuel).map (fun r => (r.1, Call.lock_write))

/-- Destructor `~wlock_guard()` (lines 157-160). -/
def wlock_guard.dtor (l : rwlock) : rwlock × Call :=
  (l.unlock_write, Call.unlock_write)

/-- Result of a critical section as seen outside the scope when the destructor threw `e`. -/
def scopeOutcome {ε α : Type} (e : Option Exn) (r : Except ε α) : Outcome ε α :=
  match e, r with
  | some _, _ => Outcome.terminated
  | none, Except.ok a => Outcome.returned a
  | none, Except.error x => Outcome.thrown x

/-- A block `{ rlock_guard g(l); body }`: the constructor runs, then the critical section
`body` (which works on its own data and may throw), then the destructor, on the normal and
on the exceptional exit alike.  `none` when the constructor does not return within the
fuel. -/
def rlock_guard.scope {σ ε α : Type} (debug : Bool) (spur : Nat → Bool) (fuel : Nat)
    (body : σ → Except ε α × σ) (l : rwlock) (d : σ) : Option (ScopeResult σ ε α) :=
  match rlock_guard.ctor spur fuel l with
  | none => none
  | some (l1, c1) =>
    let r := body d
    let u := rlock_guard.dtor debug l1
    some { lock := u.1.2, data := r.2, outcome := scopeOutcome u.1.1 r.1, calls := [c1, u.2] }

/-- A block `{ wlock_guard g(l); body }`, as `rlock_guard.scope`. -/
def wlock_guard.scope {σ ε α : Type} (spur : Nat → Bool) (fuel : Nat)
    (body : σ → Except ε α × σ) (l : rwlock) (d : σ) : Option (ScopeResult σ ε α) :=
  match wlock_guard.ctor spur fuel l with
  | none => none
  | some (l1, c1) =>
    let r := body d
    let u := wlock_guard.dtor l1
    some { lock := u.1, data := r.2, outcome := scopeOutcome none r.1, calls := [c1, u.2] }

/-! ## Several clients: atomic steps and their interleavings -/

/-- Where a client stands.  A client outside every call holds nothing (`idle`), a read lock
(`reading`) or the write lock (`writing`); inside a call it stands between two accesses to
the atomic members. -/
inductive Pc where
  /-- Outside every call, holding nothing. -/
  | idle : Pc
  /-- In `lock_read`, after a failed attempt and its pause, with loop counter `k` (line 48). -/
  | lock_read_48 (k : Nat) : Pc
  /-- In `try_lock_read` after line 36 has loaded `count`; `loop` is the counter of the
  calling `lock_read` loop, `none` for a direct call. -/
  | try_lock_read_40 (loop : Option Nat) (count : Int) : Pc
  /-- In `try_lock_read`, the condition of line 40 was false, before line 43. -/
  | try_lock_read_43 (loop : Option Nat) (count : Int) : Pc
  /-- Outside every call after a successful read acquisition. -/
  | reading : Pc
  /-- In `unlock_read` of a debug build, after line 67 and before line 70. -/
  | unlock_read_70 : Pc
  /-- In `lock_write` after line 84, before an attempt, with loop counter `k` (line 85). -/
  | lock_write_85 (k : Nat) : Pc
  /-- In `lock_write` after the attempt that succeeded, before line 100. -/
  | lock_write_100 : Pc
  /-- Outside every call after a successful write acquisition. -/
  | writing : Pc
  deriving DecidableEq, Repr

/-- A completed call and its result. -/
inductive Ret where
  | try_lock_read (r : Bool) : Ret
  | unlock_read (e : Option Exn) : Ret
  | try_lock_write (r : Bool) : Ret
  | lock_write : Ret
  | unlock_write : Ret
  deriving DecidableEq, Repr

/-- Leaving `try_lock_read` with `false`: a direct call returns to the client, a call from
`lock_read` pauses and goes round the loop with the counter incremented. -/
def readFailed (loop : Option Nat) : Pc :=
  match loop with
  | none => Pc.idle
  | some k => Pc.lock_read_48 (uincr k)

/-- One atomic step of one client standing at `pc` on lock `l`.  `call` is the member
function a client outside every call enters (not consulted inside a call); `spurious` is the
choice of a `compare_exchange_weak` executed by the step.  `none`: the step is not part of
well-matched use (a release by a client that does not hold that kind of lock, or a second
acquisition by a client that holds one).  The result is the lock, the client's new place and
the call that completed with this step, if any. -/
def tstep (debug : Bool) (l : rwlock) (pc : Pc) (call : Call) (spurious : Bool) :
    Option (rwlock × Pc × Option Ret) :=
  match pc, call with
  | Pc.idle, Call.try_lock_read => some (l, Pc.try_lock_read_40 none l.m_lock_count, none)
  | Pc.idle, Call.lock_read => some (l, Pc.try_lock_read_40 (some 0) l.m_lock_count, none)
  | Pc.lock_read_48 k, _ => some (l, Pc.try_lock_read_40 (some k) l.m_lock_count, none)
  | Pc.try_lock_read_40 loop count, _ =>
    if count = -1 ∨ (l.m_is_write_first = true ∧ l.m_write_wait_count > 0) then
      some (l, readFailed loop, some (Ret.try_lock_read false))
    else
      some (l, Pc.try_lock_read_43 loop count, none)
  | Pc.try_lock_read_43 loop count, _ =>
    let r := compare_exchange_weak spurious l.m_lock_count count (wrapInt (count + 1))
    if r.1 = true then
      some ({ l with m_lock_count := r.2 }, Pc.reading, some (Ret.try_lock_read true))
    else
      some ({ l with m_lock_count := r.2 }, readFailed loop, some (Ret.try_lock_read false))
  | Pc.reading, Call.unlock_read =>
    let l1 := { l with m_lock_count := wrapInt (l.m_lock_count - 1) }
    if debug = true then some (l1, Pc.unlock_read_70, none)
    else some (l1, Pc.idle, some (Ret.unlock_read none))
  | Pc.unlock_read_70, _ =>
    if l.m_lock_count < 0 then some (l, Pc.idle, some (Ret.unlock_read (some Exn.runtime_error)))
    else some (l, Pc.idle, some (Ret.unlock_read none))
  | Pc.idle, Call.try_lock_write =>
    let r := compare_exchange_weak spurious l.m_lock_count 0 (-1)
    some ({ l with m_lock_count := r.2 }, if r.1 = true then Pc.writing else Pc.idle,
      some (Ret.try_lock_write r.1))
  | Pc.idle, Call.lock_write =>
    some ({ l with m_write_wait_count := uincr l.m_write_wait_count }, Pc.lock_write_85 0, none)
  | Pc.lock_write_85 k, _ =>
    let r := compare_exchange_weak spurious l.m_lock_count 0 (-1)
    if r.1 = true then
      some ({ l with m_lock_count := r.2 }, Pc.lock_write_100, some (Ret.try_lock_write true))
    else
      some ({ l with m_lock_count := r.2 }, Pc.lock_write_85 (uincr k),
        some (Ret.try_lock_write false))
  | Pc.lock_write_100, _ =>
    some ({ l with m_write_wait_count := udecr l.m_write_wait_count }, Pc.writing,
      some Ret.lock_write)
  | Pc.writing, Call.unlock_write => some ({ l with m_lock_count := 0 }, Pc.idle,
      some Ret.unlock_write)
  | _, _ => none

/-- One scheduling decision: client `tid` takes its next atomic step. -/
structure Action where
  /-- Index of the client. -/
  tid : Nat
  /-- Member function entered, for a client outside every call. -/
  call : Call
  /-- Whether a `compare_exchange_weak` executed by the step fails spuriously. -/
  spurious : Bool
  deriving DecidableEq, Repr

/-- One lock shared by a fixed population of clients. -/
structure System where
  /-- The shared lock. -/
  lock : rwlock
  /-- Place of every client. -/
  threads : List Pc
  /-- Completed calls, latest first, with the client that made them. -/
  log : List (Nat × Ret)
  deriving DecidableEq, Repr

/-- A freshly constructed lock and `n` clients outside every call. -/
def System.init (is_write_first : Bool) (n : Nat) : System :=
  { lock := rwlock.new is_write_first, threads := List.replicate n Pc.idle, log := [] }

/-- The log after client `tid` made a step that completed the call `ev`, if any. -/
def pushRet (tid : Nat) (ev : Option Ret) (log : List (Nat × Ret)) : List (Nat × Ret) :=
  match ev with
  | none => log
  | some e => (tid, e) :: log

/-- The system after the step `a`; `none` when `a` names no client or a step outside
well-matched use. -/
def step (debug : Bool) (s : System) (a : Action) : Option System :=
  match s.threads[a.tid]? with
  | none => none
  | some pc =>
    match tstep debug s.lock pc a.call a.spurious with
    | none => none
    | some (l1, pc1, ev) =>
      some { lock := l1, threads := s.threads.set a.tid pc1, log := pushRet a.tid ev s.log }

/-- The system after a schedule, a list of steps taken in order. -/
def run (debug : Bool) : System → List Action → Option System
  | s, [] => some s
  | s, a :: rest =>
    match step debug s a with
    | none => none
    | some s1 => run debug s1 rest

/-- State `s` is reachable from `s0`. -/
def Reachable (debug : Bool) (s0 s : System) : Prop :=
  ∃ sched : List Action, run debug s0 sched = some s

/-- The client holds a read lock. -/
def Pc.holdsRead : Pc → Bool
  | Pc.reading => true
  | _ => false

/-- The client holds the write lock: its acquiring compare-and-swap succeeded and it has not
called `unlock_write`. -/
def Pc.holdsWrite : Pc → Bool
  | Pc.lock_write_100 => true
  | Pc.writing => true
  | _ => false

/-- The client is inside `lock_write`, between line 84 and line 100. -/
def Pc.inLockWrite : Pc → Bool
  | Pc.lock_write_85 _ => true
  | Pc.lock_write_100 => true
  | _ => false

/-- Number of clients holding a read lock. -/
def System.readers (s : System) : Nat := s.threads.countP Pc.holdsRead

/-- Number of clients holding the write lock. -/
def System.writers (s : System) : Nat := s.threads.countP Pc.holdsWrite

/-- Number of clients inside `lock_write`. -/
def System.waiting (s : System) : Nat := s.threads.countP Pc.inLockWrite

/-! ## Sequences of calls by one client -/

/-- `n` calls of `try_lock_read` in a row, none failing spuriously: the lock afterwards when
all of them returned `true`, `none` as soon as one returns `false`. -/
def read_acquisitions : Nat → rwlock → Option rwlock
  | 0, l => some l
  | n + 1, l =>
    match l.try_lock_read false with
    | (true, l1) => read_acquisitions n l1
    | (false, _) => none

/-- `n` calls of `lock_read` in a row; the `i`-th call still to come uses `spurs i` and the
fuel `fuel`. -/
def lock_reads (spurs : Nat → Nat → Bool) (fuel : Nat) : Nat → Nat → rwlock → Option rwlock
  | 0, _, l => some l
  | n + 1, i, l =>
    match l.lock_read (spurs i) fuel with
    | none => none
    | some r => lock_reads spurs fuel n (i + 1) r.1

/-- `n` calls of `unlock_read` in a row: the lock afterwards. -/
def unlock_reads (debug : Bool) : Nat → rwlock → rwlock
  | 0, l => l
  | n + 1, l => unlock_reads debug n (l.unlock_read debug).2

/-! ## Predicates on the shared state -/

/-- Relation between the lock and the numbers `R` of read holders and `W` of write holders:
without a write holder the occupancy is the `int` value of `R`, and `R` is below `2 ^ 32`;
with a write holder there is one, no reader, and the occupancy is `-1`. -/
def LockInv (l : rwlock) (R W : Nat) : Prop :=
  (W = 0 ∧ R < UINT_MOD ∧ l.m_lock_count = wrapInt (R : Int)) ∨
  (W = 1 ∧ R = 0 ∧ l.m_lock_count = -1)

/-- A client about to execute the compare-and-swap of line 43 has loaded a `count` other
than `-1`. -/
def Pc.casOk : Pc → Prop
  | Pc.try_lock_read_43 _ c => c ≠ -1
  | _ => True

/-- `1` for a client holding a read lock. -/
def Pc.rd (pc : Pc) : Nat := if pc.holdsRead = true then 1 else 0

/-- `1` for a client holding the write lock. -/
def Pc.wr (pc : Pc) : Nat := if pc.holdsWrite = true then 1 else 0

/-- `1` for a client inside `lock_write`. -/
def Pc.wt (pc : Pc) : Nat := if pc.inLockWrite = true then 1 else 0

/-- Invariant of the interleaved system. -/
def System.Inv (s : System) : Prop :=
  LockInv s.lock s.readers s.writers ∧
  (∀ pc ∈ s.threads, pc.casOk) ∧
  s.lock.m_write_wait_count = s.waiting % UINT_MOD

/-- What one atomic step does to the occupancy counter and to what the client holds: nothing;
or a read acquisition; or a read release; or a write acquisition; or a write release. -/
def StepEffect (l l1 : rwlock) (pc pc1 : Pc) : Prop :=
  (l1.m_lock_count = l.m_lock_count ∧ pc1.rd = pc.rd ∧ pc1.wr = pc.wr ∧
      (pc.casOk → pc1.casOk)) ∨
  (pc.rd = 0 ∧ pc1.rd = 1 ∧ pc.wr = 0 ∧ pc1.wr = 0 ∧ (pc.casOk → l.m_lock_count ≠ -1) ∧
      l1.m_lock_count = wrapInt (l.m_lock_count + 1)) ∨
  (pc.rd = 1 ∧ pc1.rd = 0 ∧ pc.wr = 0 ∧ pc1.wr = 0 ∧ pc1.casOk ∧
      l1.m_lock_count = wrapInt (l.m_lock_count - 1)) ∨
  (pc.rd = 0 ∧ pc1.rd = 0 ∧ pc.wr = 0 ∧ pc1.wr = 1 ∧ l.m_lock_count = 0 ∧
      l1.m_lock_count = -1) ∨
  (pc.rd = 0 ∧ pc1.rd = 0 ∧ pc.wr = 1 ∧ pc1.wr = 0 ∧ pc1.casOk ∧ l1.m_lock_count = 0)

/-- What one atomic step does to the waiting-writer counter and to the client's being inside
`lock_write`: nothing; or the entry into `lock_write`; or the exit from it. -/
def WaitEffect (l l1 : rwlock) (pc pc1 : Pc) : Prop :=
  (l1.m_write_wait_count = l.m_write_wait_count ∧ pc1.wt = pc.wt) ∨
  (pc.wt = 0 ∧ pc1.wt = 1 ∧ l1.m_write_wait_count = uincr l.m_write_wait_count) ∨
  (pc.wt = 1 ∧ pc1.wt = 0 ∧ l1.m_write_wait_count = udecr l.m_write_wait_count)

/-! ## Runs during which a writer has announced itself -/

/-- The client has incremented the waiting-writer counter (line 84) and has not yet released
the write lock it is acquiring: it is inside `lock_write`, or outside after a successful
write acquisition.  The part of a `lock_write` call from its increment to its return lies
within this span. -/
def Pc.engaged : Pc → Bool
  | Pc.lock_write_85 _ => true
  | Pc.lock_write_100 => true
  | Pc.writing => true
  | _ => false

/-- The client is in the loop of `lock_write`, its acquisition still to come. -/
def Pc.spinning : Pc → Bool
  | Pc.lock_write_85 _ => true
  | _ => false

/-- Client `j` is engaged in a write acquisition, see `Pc.engaged`. -/
def System.inside (s : System) (j : Nat) : Bool :=
  match s.threads[j]? with
  | some pc => pc.engaged
  | none => false

/-- The system after a schedule during which client `j` is engaged in a write acquisition in
every state passed, the first and the last included; `none` otherwise. -/
def runInside (debug : Bool) (j : Nat) : System → List Action → Option System
  | s, [] => if s.inside j = true then some s else none
  | s, a :: rest =>
    if s.inside j = true then
      match step debug s a with
      | none => none
      | some s1 => runInside debug j s1 rest
    else none

/-- The next step of a client standing at `pc` and entering `call` when outside every call
belongs to a call of `try_lock_read` (made directly or by `lock_read`). -/
def Pc.readAttempt (pc : Pc) (call : Call) : Bool :=
  match pc, call with
  | Pc.idle, Call.try_lock_read => true
  | Pc.idle, Call.lock_read => true
  | Pc.lock_read_48 _, _ => true
  | Pc.try_lock_read_40 _ _, _ => true
  | Pc.try_lock_read_43 _ _, _ => true
  | _, _ => false

/-- The step `a` taken in state `s` belongs to a call of `try_lock_read` by client `i`. -/
def System.readAttemptBy (s : System) (i : Nat) (a : Action) : Bool :=
  a.tid == i &&
    match s.threads[a.tid]? with
    | some pc => pc.readAttempt a.call
    | none => false

/-- Every step of the schedule that belongs to a call of `try_lock_read` by client `i`
leaves the occupancy counter as it was. -/
def occupancyKept (debug : Bool) (i : Nat) : System → List Action → Bool
  | _, [] => true
  | s, a :: rest =>
    match step debug s a with
    | none => true
    | some s1 =>
      (!(s.readAttemptBy i a) || decide (s1.lock.m_lock_count = s.lock.m_lock_count))
        && occupancyKept debug i s1 rest

/-- The client is not between the check of line 40 and the compare-and-swap of line 43 of a
`try_lock_read`: of a call of `try_lock_read` in progress, the check of line 40 is still to
come. -/
def Pc.beforeCas : Pc → Bool
  | Pc.try_lock_read_43 _ _ => false
  | _ => true

/-- The client is neither holding nor releasing a read lock. -/
def Pc.notReading : Pc → Bool
  | Pc.reading => false
  | Pc.unlock_read_70 => false
  | _ => true

/-- Invariant of a run during which client `j` is engaged in a write acquisition, for `n`
clients: as long as `j` is spinning, client `i` is not past the check of line 40 of a
`try_lock_read`. -/
def System.Window (n i j : Nat) (s : System) : Prop :=
  s.Inv ∧ s.threads.length = n ∧ s.lock.m_is_write_first = true ∧
  ∃ pci pcj, s.threads[i]? = some pci ∧ s.threads[j]? = some pcj ∧
    pcj.engaged = true ∧ (pcj.spinning = true → pci.beforeCas = true)

/-! ## The attempts and pauses of a spin loop among other clients -/

/-- The attempt that a step from `pc` completes when it returns `ev`, with the pause that
follows it.  A `lock_read` or `lock_write` loop with counter `k` answers a failed attempt
with the body of the loop (lines 50-61 and 87-98) and increments `k` afterwards; a
successful attempt and a direct call of `try_lock_read` or `try_lock_write` are followed by
no pause. -/
def attemptOf (pc : Pc) (ev : Option Ret) : Option (Bool × Option Pause) :=
  match pc, ev with
  | Pc.try_lock_read_40 (some k) _, some (Ret.try_lock_read false) =>
    some (false, some (backoff k))
  | Pc.try_lock_read_43 (some k) _, some (Ret.try_lock_read false) =>
    some (false, some (backoff k))
  | Pc.lock_write_85 k, some (Ret.try_lock_write false) => some (false, some (backoff k))
  | _, some (Ret.try_lock_read r) => some (r, none)
  | _, some (Ret.try_lock_write r) => some (r, none)
  | _, _ => none

/-- The attempt completed by the step `a` taken in state `s`, with its pause. -/
def System.attempt (debug : Bool) (s : System) (a : Action) : Option (Bool × Option Pause) :=
  match s.threads[a.tid]? with
  | none => none
  | some pc =>
    match tstep debug s.lock pc a.call a.spurious with
    | none => none
    | some (_, _, ev) => attemptOf pc ev

/-- The attempts completed by client `i` during a schedule, in order, each with its result
and the pause that followed it.  The schedule is followed as long as its steps are
well-matched use. -/
def attemptsBy (debug : Bool) (i : Nat) : System → List Action → List (Bool × Option Pause)
  | _, [] => []
  | s, a :: rest =>
    match step debug s a with
    | none => []
    | some s1 =>
      if a.tid = i then (s.attempt debug a).toList ++ attemptsBy debug i s1 rest
      else attemptsBy debug i s1 rest

/-- The loop counter `k` of a client that is about to call, or is inside, the blocking
acquisition `call` and has not acquired the lock. -/
def Pc.loopCounter (call : Call) (pc : Pc) : Option Nat :=
  match call, pc with
  | Call.lock_read, Pc.idle => some 0
  | Call.lock_write, Pc.idle => some 0
  | Call.lock_read, Pc.lock_read_48 k => some k
  | Call.lock_read, Pc.try_lock_read_40 (some k) _ => some k
  | Call.lock_read, Pc.try_lock_read_43 (some k) _ => some k
  | Call.lock_write, Pc.lock_write_85 k => some k
  | _, _ => none

/-- The last attempt of the blocking acquisition `call` of the client has succeeded. -/
def Pc.acquired (call : Call) (pc : Pc) : Bool :=
  match call, pc with
  | Call.lock_read, Pc.reading => true
  | Call.lock_write, Pc.lock_write_100 => true
  | Call.lock_write, Pc.writing => true
  | _, _ => false

/-! ## Arithmetic of the machine integers -/

theorem wrapInt_of_isInt (z : Int) (h : IsInt z) : wrapInt z = z := by
  unfold IsInt INT_MIN INT_MAX at h
  unfold wrapInt
  omega

theorem wrapInt_isInt (z : Int) : IsInt (wrapInt z) := by
  unfold IsInt INT_MIN INT_MAX wrapInt
  omega

theorem wrapInt_succ (z : Int) : wrapInt (wrapInt z + 1) = wrapInt (z + 1) := by
  unfold wrapInt
  omega

theorem wrapInt_pred (z : Int) : wrapInt (wrapInt z - 1) = wrapInt (z - 1) := by
  unfold wrapInt
  omega

/-! ## Single attempts -/

/-- C3, as stated, fails: with occupancy `INT_MAX` (and no writer waiting, or no writer
priority) `try_lock_read` returns `true` and the occupancy becomes `INT_MIN`, which is not
`INT_MAX + 1`; so the occupancy after a successful attempt is not `c + 1` for every lock
state. -/
theorem try_lock_read_wraps_at_int_max :
    (∀ (w : Nat) (p : Bool), (p = true → w = 0) →
      rwlock.try_lock_read false ⟨w, INT_MAX, p⟩ = (true, ⟨w, INT_MIN, p⟩)) ∧
    rwlock.try_lock_read false ⟨0, 2147483647, true⟩ = (true, ⟨0, -2147483648, true⟩) ∧
    (rwlock.try_lock_read false ⟨0, 2147483647, true⟩).2.m_lock_count ≠ 2147483647 + 1 ∧
    ¬ (∀ (spurious : Bool) (l : rwlock), IsInt l.m_lock_count →
        (l.try_lock_read spurious).1 = true →
        (l.try_lock_read spurious).2.m_lock_count = l.m_lock_count + 1) := by
  refine ⟨?_, by decide, by decide, ?_⟩
  · intro w p hp
    unfold rwlock.try_lock_read compare_exchange_weak INT_MAX INT_MIN wrapInt
    cases p
    · simp
    · simp [hp rfl]
  · intro h
    exact absurd (h false ⟨0, 2147483647, true⟩ (by decide) (by decide)) (by decide)

/-- C3, amended. `try_lock_read` as a single attempt, for every lock state whose occupancy
`c` is an `int` and either outcome of the weak compare-and-swap: with occupancy `-1`, or with
writer priority and a waiting writer, it returns `false` and leaves the lock as it was;
otherwise its result is that of the compare-and-swap from `c` to the `int` value `c + 1`,
and it returns `true` exactly when that swap is not a spurious failure; when it returns
`true` and `c` is below `INT_MAX` the occupancy becomes the number `c + 1` and nothing else
changes; when it returns `true` at `c = INT_MAX` the occupancy becomes `INT_MIN` and nothing
else changes; when it returns `false` the lock is unchanged; and without writer priority
neither the result nor the occupancy depends on the waiting-writer count. -/
theorem try_lock_read_single_attempt (spurious : Bool) (l : rwlock)
    (hc : IsInt l.m_lock_count) :
    ((l.m_lock_count = -1 ∨ (l.m_is_write_first = true ∧ 0 < l.m_write_wait_count)) →
      l.try_lock_read spurious = (false, l)) ∧
    (¬ (l.m_lock_count = -1 ∨ (l.m_is_write_first = true ∧ 0 < l.m_write_wait_count)) →
      l.try_lock_read spurious =
        ((compare_exchange_weak spurious l.m_lock_count l.m_lock_count
            (wrapInt (l.m_lock_count + 1))).1,
         { l with m_lock_count := (compare_exchange_weak spurious l.m_lock_count l.m_lock_count
            (wrapInt (l.m_lock_count + 1))).2 }) ∧
      ((l.try_lock_read spurious).1 = true ↔ spurious = false)) ∧
    ((l.try_lock_read spurious).1 = true → l.m_lock_count ≠ INT_MAX →
      (l.try_lock_read spurious).2 = { l with m_lock_count := l.m_lock_count + 1 }) ∧
    ((l.try_lock_read spurious).1 = true → l.m_lock_count = INT_MAX →
      (l.try_lock_read spurious).2 = { l with m_lock_count := INT_MIN }) ∧
    ((l.try_lock_read spurious).1 = false → (l.try_lock_read spurious).2 = l) ∧
    (l.m_is_write_first = false → ∀ w : Nat,
      (rwlock.try_lock_read spurious { l with m_write_wait_count := w }).1
        = (l.try_lock_read spurious).1 ∧
      (rwlock.try_lock_read spurious { l with m_write_wait_count := w }).2.m_lock_count
        = (l.try_lock_read spurious).2.m_lock_count) := by
  have key : (l.try_lock_read spurious).1 = true →
      (l.try_lock_read spurious).2 = { l with m_lock_count := wrapInt (l.m_lock_count + 1) } := by
    intro h
    unfold rwlock.try_lock_read compare_exchange_weak at h ⊢
    by_cases hg : l.m_lock_count = -1 ∨ (l.m_is_write_first = true ∧ l.m_write_wait_count > 0)
      <;> cases spurious <;> simp [hg] at h ⊢
  refine ⟨?_, ?_, ?_, ?_, ?_, ?_⟩
  · intro h
    simp only [rwlock.try_lock_read, gt_iff_lt, h, if_true]
  · intro h
    refine ⟨?_, ?_⟩
    · simp only [rwlock.try_lock_read, gt_iff_lt, h, if_false]
    · unfold rwlock.try_lock_read compare_exchange_weak
      cases spurious <;> simp [h]
  · intro h hne
    rw [key h]
    have hw : wrapInt (l.m_lock_count + 1) = l.m_lock_count + 1 := by
      unfold IsInt INT_MIN INT_MAX at *
      unfold wrapInt
      omega
    rw [hw]
  · intro h he
    rw [key h, he]
    rfl
  · intro h
    unfold rwlock.try_lock_read compare_exchange_weak at h ⊢
    by_cases hg : l.m_lock_count = -1 ∨ (l.m_is_write_first = true ∧ l.m_write_wait_count > 0)
      <;> cases spurious <;> simp [hg] at h ⊢
  · intro h w
    unfold rwlock.try_lock_read compare_exchange_weak
    simp only [h]
    by_cases hc : l.m_lock_count = -1 <;> cases spurious <;> simp [hc]

/-- C4. `try_lock_write` as a single attempt, for every lock state and either outcome of the
weak compare-and-swap: it returns `true` only when the occupancy is `0`, and then the
occupancy becomes `-1`; when it returns `false` (as it does for every occupancy other than
`0`) the occupancy is unchanged; the waiting-writer count and the priority flag are never
changed; and the result and the new occupancy are the same for every waiting-writer count
and priority flag. -/
theorem try_lock_write_single_attempt (spurious : Bool) (l : rwlock) :
    ((l.try_lock_write spurious).1 = true →
      l.m_lock_count = 0 ∧ (l.try_lock_write spurious).2.m_lock_count = -1) ∧
    ((l.try_lock_write spurious).1 = false →
      (l.try_lock_write spurious).2.m_lock_count = l.m_lock_count) ∧
    (l.m_lock_count ≠ 0 → (l.try_lock_write spurious).1 = false) ∧
    (l.try_lock_write spurious).2.m_write_wait_count = l.m_write_wait_count ∧
    (l.try_lock_write spurious).2.m_is_write_first = l.m_is_write_first ∧
    (∀ (w : Nat) (p : Bool),
      (rwlock.try_lock_write spurious ⟨w, l.m_lock_count, p⟩).1 = (l.try_lock_write spurious).1 ∧
      (rwlock.try_lock_write spurious ⟨w, l.m_lock_count, p⟩).2.m_lock_count
        = (l.try_lock_write spurious).2.m_lock_count) := by
  unfold rwlock.try_lock_write compare_exchange_weak
  by_cases hc : l.m_lock_count = 0 <;> cases spurious <;> simp [hc]
/-- Witness of C3: a lock with three readers, no priority, an attempt that goes through. -/
theorem try_lock_read_single_attempt_witness :
    IsInt 3 ∧ (rwlock.try_lock_read false ⟨5, 3, false⟩).1 = true ∧ (3 : Int) ≠ INT_MAX ∧
    (rwlock.try_lock_read false ⟨5, 3, false⟩).2 = ⟨5, 3 + 1, false⟩ :=
  ⟨by decide, by decide, by decide,
    (try_lock_read_single_attempt false ⟨5, 3, false⟩ (by decide)).2.2.1 (by decide)
      (by decide)⟩

/-- Witness of C4: an idle lock with waiting writers, an attempt that goes through. -/
theorem try_lock_write_single_attempt_witness :
    (rwlock.try_lock_write false ⟨7, 0, true⟩).1 = true ∧
    (0 : Int) = 0 ∧ (rwlock.try_lock_write false ⟨7, 0, true⟩).2.m_lock_count = -1 := by
  have h := try_lock_write_single_attempt false ⟨7, 0, true⟩
  exact ⟨by decide, h.1 (by decide)⟩

/-- C9, as stated, fails: on a freshly constructed lock the first `try_lock_read` and the
first `try_lock_write` return `false`, leaving the occupancy `0`, when their
`compare_exchange_weak` fails spuriously. -/
theorem fresh_lock_attempt_may_fail :
    (rwlock.new_default.try_lock_read true) = (false, rwlock.new_default) ∧
    (rwlock.new_default.try_lock_write true) = (false, rwlock.new_default) ∧
    ¬ (∀ (p spurious : Bool), ((rwlock.new p).try_lock_read spurious).1 = true ∧
        ((rwlock.new p).try_lock_write spurious).1 = true) := by
  refine ⟨by decide, by decide, ?_⟩
  intro h
  exact absurd (h true true).1 (by decide)

/-- C9, amended. For both values of the writer-priority flag (enabled when the constructor
gets no argument) a freshly constructed lock has occupancy `0` and waiting-writer count `0`;
on it a first `try_lock_read` whose compare-and-swap does not fail spuriously returns `true`
and leaves occupancy `1`, and alternatively such a first `try_lock_write` returns `true` and
leaves occupancy `-1`; an attempt whose compare-and-swap fails spuriously returns `false` and
leaves the lock idle. -/
theorem fresh_lock_idle_and_acquirable (p : Bool) :
    rwlock.new_default = rwlock.new true ∧
    (rwlock.new p).m_is_write_first = p ∧
    (rwlock.new p).m_lock_count = 0 ∧
    (rwlock.new p).m_write_wait_count = 0 ∧
    (rwlock.new p).try_lock_read false = (true, { rwlock.new p with m_lock_count := 1 }) ∧
    (rwlock.new p).try_lock_write false = (true, { rwlock.new p with m_lock_count := -1 }) ∧
    (rwlock.new p).try_lock_read true = (false, rwlock.new p) ∧
    (rwlock.new p).try_lock_write true = (false, rwlock.new p) := by
  cases p <;> decide

/-! ## Sequences of acquisitions and releases -/

theorem try_lock_read_true (w : Nat) (c : Int) (p : Bool) (hc : c ≠ -1)
    (hw : p = false ∨ w = 0) :
    rwlock.try_lock_read false ⟨w, c, p⟩ = (true, ⟨w, wrapInt (c + 1), p⟩) := by
  unfold rwlock.try_lock_read compare_exchange_weak
  rcases hw with hw | hw <;> simp [hc, hw]

theorem try_lock_read_spurious (l : rwlock) : l.try_lock_read true = (false, l) := by
  unfold rwlock.try_lock_read compare_exchange_weak
  simp only [Bool.true_eq_false, and_false, if_false]
  split_ifs <;> rfl

theorem wrapInt_ne_neg_one (k : Nat) (hk : k + 1 < UINT_MOD) : wrapInt (k : Int) ≠ -1 := by
  unfold UINT_MOD at hk
  unfold wrapInt
  omega

theorem read_acquisitions_eq (p : Bool) (n : Nat) : ∀ k : Nat, k + n < UINT_MOD →
    read_acquisitions n ⟨0, wrapInt (k : Int), p⟩ = some ⟨0, wrapInt ((k + n : Nat) : Int), p⟩ := by
  induction n with
  | zero => intro k _; rfl
  | succ n ih =>
    intro k hk
    have h1 : wrapInt (k : Int) ≠ -1 := wrapInt_ne_neg_one k (by omega)
    have h2 := ih (k + 1) (by omega)
    have e : ((k + 1 : Nat) : Int) = (k : Int) + 1 := by push_cast; rfl
    have e2 : k + 1 + n = k + (n + 1) := by omega
    rw [e, e2] at h2
    rw [read_acquisitions, try_lock_read_true 0 _ p h1 (Or.inr rfl), wrapInt_succ]
    exact h2
theorem unlock_read_snd (debug : Bool) (l : rwlock) :
    (l.unlock_read debug).2 = { l with m_lock_count := wrapInt (l.m_lock_count - 1) } := by
  unfold rwlock.unlock_read
  dsimp only
  split_ifs <;> rfl

theorem unlock_reads_eq (debug : Bool) (w : Nat) (p : Bool) (j : Nat) : ∀ c : Int,
    unlock_reads debug j ⟨w, wrapInt c, p⟩ = ⟨w, wrapInt (c - j), p⟩ := by
  induction j with
  | zero => intro c; simp [unlock_reads]
  | succ j ih =>
    intro c
    have e : c - 1 - (j : Int) = c - ((j + 1 : Nat) : Int) := by push_cast; omega
    rw [unlock_reads, unlock_read_snd]
    simp only [wrapInt_pred]
    rw [ih (c - 1), e]

theorem read_acquisitions_new (p : Bool) (n : Nat) (hn : n < UINT_MOD) :
    read_acquisitions n (rwlock.new p) = some ⟨0, wrapInt (n : Int), p⟩ := by
  have h := read_acquisitions_eq p n 0 (by omega)
  have e0 : wrapInt ((0 : Nat) : Int) = 0 := by decide
  rw [e0, Nat.zero_add] at h
  exact h

/-- C5, as stated, fails for `n = 2 ^ 31 + 1`: after that many successful read acquisitions
on a fresh lock the occupancy counter has wrapped to `-2147483647`, and the first of the
matched calls to `unlock_read` raises in a debug build. -/
theorem matched_unlock_read_raises_after_overflow :
    read_acquisitions 2147483649 (rwlock.new true) = some ⟨0, -2147483647, true⟩ ∧
    rwlock.unlock_read true ⟨0, -2147483647, true⟩
      = (some Exn.runtime_error, ⟨0, -2147483648, true⟩) := by
  have e1 : wrapInt ((2147483649 : Nat) : Int) = -2147483647 := by
    unfold wrapInt; norm_num
  have e2 : wrapInt (-2147483647 - 1) = -2147483648 := by
    unfold wrapInt; norm_num
  constructor
  · rw [read_acquisitions_new true 2147483649 (by unfold UINT_MOD; norm_num), e1]
  · unfold rwlock.unlock_read
    simp only [e2]
    norm_num

/-- C5, amended to the range of `int`. For every `n` from `0` to `INT_MAX`, on a lock that
starts idle and is used by no writer, the `n` read acquisitions succeed; of the `n + 1` calls
to `unlock_read` that follow in a debug build, each of the first `n` decrements the occupancy
counter by exactly one and raises nothing, and the last one raises `std::runtime_error`. -/
theorem unmatched_unlock_read_detected (p : Bool) (n : Nat) (hn : (n : Int) ≤ INT_MAX) :
    ∃ l : rwlock, read_acquisitions n (rwlock.new p) = some l ∧
      l.m_lock_count = n ∧
      (∀ j : Nat, j < n →
        rwlock.unlock_read true (unlock_reads true j l)
          = (none, { unlock_reads true j l with
                      m_lock_count := (unlock_reads true j l).m_lock_count - 1 })) ∧
      (rwlock.unlock_read true (unlock_reads true n l)).1 = some Exn.runtime_error := by
  unfold INT_MAX at hn
  have h := read_acquisitions_new p n (by unfold UINT_MOD; omega)
  have en : wrapInt (n : Int) = n := by
    unfold wrapInt; omega
  rw [en] at h
  refine ⟨⟨0, n, p⟩, h, rfl, ?_, ?_⟩
  · intro j hj
    have hu := unlock_reads_eq true 0 p j (n : Int)
    have e2 : wrapInt (n : Int) = n := by unfold wrapInt; omega
    rw [e2] at hu
    rw [hu]
    have e3 : wrapInt ((n : Int) - j) = (n : Int) - j := by unfold wrapInt; omega
    have e4 : wrapInt ((n : Int) - j - 1) = (n : Int) - j - 1 := by unfold wrapInt; omega
    unfold rwlock.unlock_read
    simp only [e3, e4]
    have : ¬ ((n : Int) - j - 1 < 0) := by omega
    simp [this]
  · have hu := unlock_reads_eq true 0 p n (n : Int)
    have e2 : wrapInt (n : Int) = n := by unfold wrapInt; omega
    rw [e2] at hu
    rw [hu]
    have e3 : wrapInt ((n : Int) - n) = 0 := by simp [wrapInt]
    have e5 : wrapInt (0 - 1) < 0 := by decide
    unfold rwlock.unlock_read
    simp only [e3]
    rw [if_pos ⟨trivial, e5⟩]

/-- Witness of C5 (amended): two acquisitions, then three releases. -/
theorem unmatched_unlock_read_detected_witness :
    ((2 : Nat) : Int) ≤ INT_MAX ∧
    ∃ l : rwlock, read_acquisitions 2 (rwlock.new true) = some l ∧
      l.m_lock_count = (2 : Nat) ∧
      (∀ j : Nat, j < 2 →
        rwlock.unlock_read true (unlock_reads true j l)
          = (none, { unlock_reads true j l with
                      m_lock_count := (unlock_reads true j l).m_lock_count - 1 })) ∧
      (rwlock.unlock_read true (unlock_reads true 2 l)).1 = some Exn.runtime_error :=
  ⟨by decide, unmatched_unlock_read_detected true 2 (by decide)⟩

/-! ## Interleavings: bookkeeping -/

theorem countP_set_add (f : Pc → Bool) (pc1 : Pc) : ∀ (l : List Pc) (i : Nat) (pc : Pc),
    l[i]? = some pc →
    (l.set i pc1).countP f + (if f pc = true then 1 else 0)
      = l.countP f + (if f pc1 = true then 1 else 0) := by
  intro l
  induction l with
  | nil => intro i pc h; simp at h
  | cons x xs ih =>
    intro i pc h
    cases i with
    | zero =>
      simp only [List.getElem?_cons_zero, Option.some.injEq] at h
      subst h
      simp only [List.set_cons_zero, List.countP_cons]
      omega
    | succ i =>
      simp only [List.getElem?_cons_succ] at h
      have := ih i pc h
      simp only [List.set_cons_succ, List.countP_cons]
      omega

theorem mem_set_of (pc1 : Pc) : ∀ (l : List Pc) (i : Nat) (x : Pc),
    x ∈ l.set i pc1 → x = pc1 ∨ x ∈ l := by
  intro l
  induction l with
  | nil => intro i x h; simp at h
  | cons y ys ih =>
    intro i x h
    cases i with
    | zero =>
      simp only [List.set_cons_zero, List.mem_cons] at h ⊢
      tauto
    | succ i =>
      simp only [List.set_cons_succ, List.mem_cons] at h ⊢
      rcases h with h | h
      · tauto
      · rcases ih i x h with h | h <;> tauto

theorem mem_of_getElem? {l : List Pc} {i : Nat} {pc : Pc} (h : l[i]? = some pc) : pc ∈ l := by
  rw [List.getElem?_eq_some] at h
  obtain ⟨hi, rfl⟩ := h
  exact List.getElem_mem hi

theorem step_inv {debug : Bool} {s s1 : System} {a : Action} (h : step debug s a = some s1) :
    ∃ pc l1 pc1 ev, s.threads[a.tid]? = some pc ∧
      tstep debug s.lock pc a.call a.spurious = some (l1, pc1, ev) ∧
      s1.lock = l1 ∧ s1.threads = s.threads.set a.tid pc1 ∧
      s1.log = pushRet a.tid ev s.log := by
  unfold step at h
  split at h
  · simp at h
  · rename_i pc hpc
    split at h
    · simp at h
    · rename_i l1 pc1 ev ht
      simp only [Option.some.injEq] at h
      subst h
      exact ⟨pc, l1, pc1, ev, hpc, ht, rfl, rfl, rfl⟩
theorem readFailed_rd (loop : Option Nat) : (readFailed loop).rd = 0 := by
  cases loop <;> rfl

theorem readFailed_wr (loop : Option Nat) : (readFailed loop).wr = 0 := by
  cases loop <;> rfl

theorem readFailed_wt (loop : Option Nat) : (readFailed loop).wt = 0 := by
  cases loop <;> rfl

theorem readFailed_casOk (loop : Option Nat) : (readFailed loop).casOk := by
  cases loop <;> exact trivial

set_option maxHeartbeats 4000000 in
theorem tstep_effect {debug : Bool} {l l1 : rwlock} {pc pc1 : Pc} {call : Call} {sp : Bool}
    {ev : Option Ret} (h : tstep debug l pc call sp = some (l1, pc1, ev)) :
    StepEffect l l1 pc pc1 := by
  unfold StepEffect
  cases pc <;> cases call <;>
    simp only [tstep, compare_exchange_weak, reduceCtorEq] at h <;>
    (try split_ifs at h) <;>
    simp only [Option.some.injEq, Prod.mk.injEq] at h <;>
    obtain ⟨rfl, rfl, rfl⟩ := h <;>
    simp only [readFailed_rd, readFailed_wr, readFailed_casOk] <;>
    simp_all [Pc.rd, Pc.wr, Pc.holdsRead, Pc.holdsWrite, Pc.casOk]
set_option maxHeartbeats 4000000 in
theorem tstep_wait {debug : Bool} {l l1 : rwlock} {pc pc1 : Pc} {call : Call} {sp : Bool}
    {ev : Option Ret} (h : tstep debug l pc call sp = some (l1, pc1, ev)) :
    WaitEffect l l1 pc pc1 ∧ l1.m_is_write_first = l.m_is_write_first := by
  unfold WaitEffect
  cases pc <;> cases call <;>
    simp only [tstep, compare_exchange_weak, reduceCtorEq] at h <;>
    (try split_ifs at h) <;>
    simp only [Option.some.injEq, Prod.mk.injEq] at h <;>
    obtain ⟨rfl, rfl, rfl⟩ := h <;>
    simp only [readFailed_wt] <;>
    simp_all [Pc.wt, Pc.inLockWrite]

theorem le_countP_of_getElem? (f : Pc → Bool) : ∀ (l : List Pc) (i : Nat) (pc : Pc),
    l[i]? = some pc → (if f pc = true then 1 else 0) ≤ l.countP f := by
  intro l
  induction l with
  | nil => intro i pc h; simp at h
  | cons x xs ih =>
    intro i pc h
    cases i with
    | zero =>
      simp only [List.getElem?_cons_zero, Option.some.injEq] at h
      subst h
      simp only [List.countP_cons]
      omega
    | succ i =>
      simp only [List.getElem?_cons_succ] at h
      have := ih i pc h
      simp only [List.countP_cons]
      omega

theorem lockInv_step {l l1 : rwlock} {pc pc1 : Pc} (he : StepEffect l l1 pc pc1)
    (hok : pc.casOk) {R W : Nat} (hinv : LockInv l R W) (hr : pc.rd ≤ R) (hw : pc.wr ≤ W)
    {R1 W1 : Nat} (hR : R1 + pc.rd = R + pc1.rd) (hW : W1 + pc.wr = W + pc1.wr) :
    LockInv l1 R1 W1 ∧ pc1.casOk := by
  unfold LockInv UINT_MOD at *
  unfold StepEffect at he
  rcases he with ⟨h1, h2, h3, h4⟩ | ⟨h1, h2, h3, h4, h5, h6⟩ | ⟨h1, h2, h3, h4, h5, h6⟩ |
      ⟨h1, h2, h3, h4, h5, h6⟩ | ⟨h1, h2, h3, h4, h5, h6⟩
  · refine ⟨?_, h4 hok⟩
    rw [h1]
    have e1 : R1 = R := by omega
    have e2 : W1 = W := by omega
    rw [e1, e2]
    exact hinv
  · have hne := h5 hok
    have hok1 : pc1.casOk := by
      unfold Pc.rd at h2
      cases pc1 <;> simp [Pc.holdsRead] at h2
      exact trivial
    refine ⟨?_, hok1⟩
    rw [h6]
    unfold wrapInt at *
    omega
  · refine ⟨?_, h5⟩
    rw [h6]
    unfold wrapInt at *
    omega
  · have hok1 : pc1.casOk := by
      unfold Pc.wr at h4
      cases pc1 <;> simp [Pc.holdsWrite] at h4 <;> exact trivial
    refine ⟨?_, hok1⟩
    rw [h6]
    unfold wrapInt at *
    omega
  · refine ⟨?_, h5⟩
    rw [h6]
    unfold wrapInt at *
    omega

theorem wait_step {l l1 : rwlock} {pc pc1 : Pc} (he : WaitEffect l l1 pc pc1)
    {T T1 : Nat} (hinv : l.m_write_wait_count = T % UINT_MOD)
    (hT : T1 + pc.wt = T + pc1.wt) : l1.m_write_wait_count = T1 % UINT_MOD := by
  unfold WaitEffect uincr udecr at he
  unfold UINT_MOD at *
  rcases he with ⟨h1, h2⟩ | ⟨h1, h2, h3⟩ | ⟨h1, h2, h3⟩
  · rw [h1, hinv]
    have : T1 = T := by omega
    rw [this]
  · rw [h3, hinv]
    omega
  · rw [h3, hinv]
    omega
theorem step_preserves_inv {debug : Bool} {s s1 : System} {a : Action} (hinv : s.Inv)
    (h : step debug s a = some s1) : s1.Inv := by
  obtain ⟨pc, l1, pc1, ev, hpc, ht, hl, hth, -⟩ := step_inv h
  obtain ⟨hL, hok, hwt⟩ := hinv
  have hokpc : pc.casOk := hok pc (mem_of_getElem? hpc)
  have hR := countP_set_add Pc.holdsRead pc1 s.threads a.tid pc hpc
  have hW := countP_set_add Pc.holdsWrite pc1 s.threads a.tid pc hpc
  have hT := countP_set_add Pc.inLockWrite pc1 s.threads a.tid pc hpc
  have hr := le_countP_of_getElem? Pc.holdsRead s.threads a.tid pc hpc
  have hw := le_countP_of_getElem? Pc.holdsWrite s.threads a.tid pc hpc
  have h1 := lockInv_step (tstep_effect ht) hokpc hL hr hw hR hW
  have h2 := wait_step (tstep_wait ht).1 hwt hT
  refine ⟨?_, ?_, ?_⟩
  · unfold System.readers System.writers
    rw [hl, hth]
    exact h1.1
  · intro x hx
    rw [hth] at hx
    rcases mem_set_of pc1 s.threads a.tid x hx with rfl | hx
    · exact h1.2
    · exact hok x hx
  · unfold System.waiting
    rw [hl, hth]
    exact h2

theorem run_preserves {P : System → Prop} {debug : Bool}
    (hstep : ∀ (s s1 : System) (a : Action), P s → step debug s a = some s1 → P s1) :
    ∀ (sched : List Action) (s s1 : System), P s → run debug s sched = some s1 → P s1 := by
  intro sched
  induction sched with
  | nil =>
    intro s s1 hp h
    simp only [run, Option.some.injEq] at h
    exact h ▸ hp
  | cons a rest ih =>
    intro s s1 hp h
    simp only [run] at h
    split at h
    · simp at h
    · rename_i s2 hs2
      exact ih s2 s1 (hstep s s2 a hp hs2) h

theorem countP_replicate_idle (f : Pc → Bool) (hf : f Pc.idle = false) (n : Nat) :
    (List.replicate n Pc.idle).countP f = 0 := by
  induction n with
  | zero => rfl
  | succ n ih => simp [List.replicate_succ, List.countP_cons, ih, hf]

theorem init_inv (p : Bool) (n : Nat) : (System.init p n).Inv := by
  refine ⟨?_, ?_, ?_⟩
  · unfold System.readers System.writers System.init
    simp only [countP_replicate_idle Pc.holdsRead rfl, countP_replicate_idle Pc.holdsWrite rfl]
    have e0 : wrapInt ((0 : Nat) : Int) = 0 := by decide
    exact Or.inl ⟨rfl, by decide, by rw [e0]; rfl⟩
  · intro pc hpc
    unfold System.init at hpc
    simp only [List.mem_replicate] at hpc
    rw [hpc.2]
    exact trivial
  · unfold System.waiting System.init
    simp only [countP_replicate_idle Pc.inLockWrite rfl]
    rfl

theorem reachable_inv {debug p : Bool} {n : Nat} {s : System}
    (h : Reachable debug (System.init p n) s) : s.Inv := by
  obtain ⟨sched, hs⟩ := h
  exact run_preserves (fun _ _ _ hp hst => step_preserves_inv hp hst) sched _ _
    (init_inv p n) hs

theorem two_le_countP (f : Pc → Bool) : ∀ (l : List Pc) (i j : Nat) (a b : Pc),
    i ≠ j → l[i]? = some a → l[j]? = some b → f a = true → f b = true → 2 ≤ l.countP f := by
  intro l
  induction l with
  | nil => intro i j a b _ h; simp at h
  | cons x xs ih =>
    intro i j a b hij hi hj ha hb
    cases i with
    | zero =>
      cases j with
      | zero => exact absurd rfl hij
      | succ j =>
        simp only [List.getElem?_cons_zero, Option.some.injEq] at hi
        simp only [List.getElem?_cons_succ] at hj
        have := le_countP_of_getElem? f xs j b hj
        rw [hb] at this
        simp only [List.countP_cons, hi, ha]
        simp only [if_true] at this ⊢
        omega
    | succ i =>
      cases j with
      | zero =>
        simp only [List.getElem?_cons_zero, Option.some.injEq] at hj
        simp only [List.getElem?_cons_succ] at hi
        have := le_countP_of_getElem? f xs i a hi
        rw [ha] at this
        simp only [List.countP_cons, hj, hb]
        simp only [if_true] at this ⊢
        omega
      | succ j =>
        simp only [List.getElem?_cons_succ] at hi hj
        have := ih i j a b (by omega) hi hj ha hb
        simp only [List.countP_cons]
        omega

/-! ## Mutual exclusion and the meaning of the occupancy counter -/

/-- C1. Mutual exclusion. In every state reached from a freshly constructed lock by an
interleaving of the atomic steps of the six member functions under well-matched use, with
any number of clients, either priority policy and either build: at most one client holds the
write lock, and while one does no client holds a read lock; that is, a client holding the
write lock excludes every other client from holding the write lock and every client from
holding a read lock. -/
theorem mutual_exclusion (debug p : Bool) (n : Nat) (s : System)
    (h : Reachable debug (System.init p n) s) :
    s.writers ≤ 1 ∧ (1 ≤ s.writers → s.readers = 0) ∧
    ∀ (i j : Nat) (a b : Pc), s.threads[i]? = some a → s.threads[j]? = some b →
      a.holdsWrite = true → (i ≠ j → b.holdsWrite = false) ∧ b.holdsRead = false := by
  obtain ⟨hL, -, -⟩ := reachable_inv h
  unfold LockInv at hL
  have hw1 : s.writers ≤ 1 := by omega
  have hr0 : 1 ≤ s.writers → s.readers = 0 := by omega
  refine ⟨hw1, hr0, ?_⟩
  intro i j a b hi hj ha
  have hwa := le_countP_of_getElem? Pc.holdsWrite s.threads i a hi
  rw [ha] at hwa
  simp only [if_true] at hwa
  constructor
  · intro hij
    by_contra hb
    simp only [Bool.not_eq_false] at hb
    have := two_le_countP Pc.holdsWrite s.threads i j a b hij hi hj ha hb
    unfold System.writers at hw1
    omega
  · by_contra hb
    simp only [Bool.not_eq_false] at hb
    have hrb := le_countP_of_getElem? Pc.holdsRead s.threads j b hj
    rw [hb] at hrb
    simp only [if_true] at hrb
    have := hr0 hwa
    unfold System.readers at this
    omega

/-- Witness of C1: of two clients the second takes the write lock while the first is in the
middle of `try_lock_read`. -/
theorem mutual_exclusion_witness :
    Reachable true (System.init true 2)
      { lock := ⟨0, -1, true⟩, threads := [Pc.try_lock_read_40 none 0, Pc.writing],
        log := [(1, Ret.try_lock_write true)] } ∧
    (1 ≤ 1 ∧ (1 ≤ 1 → 0 = 0) ∧
      ∀ (i j : Nat) (a b : Pc),
        [Pc.try_lock_read_40 none 0, Pc.writing][i]? = some a →
        [Pc.try_lock_read_40 none 0, Pc.writing][j]? = some b →
        a.holdsWrite = true → (i ≠ j → b.holdsWrite = false) ∧ b.holdsRead = false) :=
  have hr : Reachable true (System.init true 2)
      { lock := ⟨0, -1, true⟩, threads := [Pc.try_lock_read_40 none 0, Pc.writing],
        log := [(1, Ret.try_lock_write true)] } :=
    ⟨[⟨0, Call.try_lock_read, false⟩, ⟨1, Call.try_lock_write, false⟩], by decide⟩
  ⟨hr, mutual_exclusion true true 2 _ hr⟩

/-! ## Schedules that bring many clients into one place -/

theorem getElem?_append_cons (pc : Pc) (post : List Pc) : ∀ pre : List Pc,
    (pre ++ pc :: post)[pre.length]? = some pc := by
  intro pre
  induction pre with
  | nil => simp
  | cons x xs ih => simpa using ih

theorem set_append_cons (pc pc1 : Pc) (post : List Pc) : ∀ pre : List Pc,
    (pre ++ pc :: post).set pre.length pc1 = pre ++ pc1 :: post := by
  intro pre
  induction pre with
  | nil => simp
  | cons x xs ih => simp [ih]

theorem step_at {debug : Bool} {l l1 : rwlock} {pc pc1 : Pc} {ev : Option Ret}
    (pre post : List Pc) (log : List (Nat × Ret)) (call : Call) (sp : Bool)
    (ht : tstep debug l pc call sp = some (l1, pc1, ev)) :
    step debug ⟨l, pre ++ pc :: post, log⟩ ⟨pre.length, call, sp⟩
      = some ⟨l1, pre ++ pc1 :: post, pushRet pre.length ev log⟩ := by
  simp only [step, getElem?_append_cons]
  rw [ht]
  simp only [set_append_cons]

theorem run_append {debug : Bool} : ∀ (s1 : List Action) (s s2 : System) (s3 : List Action),
    run debug s s1 = some s2 → run debug s (s1 ++ s3) = run debug s2 s3 := by
  intro s1
  induction s1 with
  | nil =>
    intro s s2 s3 h
    simp only [run, Option.some.injEq] at h
    rw [h]; rfl
  | cons a rest ih =>
    intro s s2 s3 h
    simp only [run, List.cons_append] at h ⊢
    split at h
    · simp at h
    · rename_i s4 hs4
      exact ih s4 s2 s3 h

theorem Reachable.trans {debug : Bool} {s0 s1 s2 : System} (h1 : Reachable debug s0 s1)
    (h2 : Reachable debug s1 s2) : Reachable debug s0 s2 := by
  obtain ⟨a, ha⟩ := h1
  obtain ⟨b, hb⟩ := h2
  exact ⟨a ++ b, by rw [run_append a s0 s1 b ha, hb]⟩

theorem Reachable.of_step {debug : Bool} {s s1 : System} {a : Action}
    (h : step debug s a = some s1) : Reachable debug s s1 :=
  ⟨[a], by simp only [run, h]⟩

/-- One client at position `pre.length` acquires a read lock in three steps. -/
theorem read_acquisition_reachable (debug : Bool) (c : Int) (p : Bool) (pre post : List Pc)
    (log : List (Nat × Ret)) (hc : c ≠ -1) :
    Reachable debug ⟨⟨0, c, p⟩, pre ++ Pc.idle :: post, log⟩
      ⟨⟨0, wrapInt (c + 1), p⟩, pre ++ Pc.reading :: post,
        (pre.length, Ret.try_lock_read true) :: log⟩ := by
  have h1 : tstep debug ⟨0, c, p⟩ Pc.idle Call.try_lock_read false
      = some (⟨0, c, p⟩, Pc.try_lock_read_40 none c, none) := rfl
  have h2 : tstep debug ⟨0, c, p⟩ (Pc.try_lock_read_40 none c) Call.try_lock_read false
      = some (⟨0, c, p⟩, Pc.try_lock_read_43 none c, none) := by
    simp [tstep, hc]
  have h3 : tstep debug ⟨0, c, p⟩ (Pc.try_lock_read_43 none c) Call.try_lock_read false
      = some (⟨0, wrapInt (c + 1), p⟩, Pc.reading, some (Ret.try_lock_read true)) := by
    simp [tstep, compare_exchange_weak]
  exact (Reachable.of_step (step_at pre post log _ _ h1)).trans
    ((Reachable.of_step (step_at pre post log _ _ h2)).trans
      (Reachable.of_step (step_at pre post log _ _ h3)))

theorem replicate_append_cons (a : Pc) (k : Nat) (l : List Pc) :
    List.replicate k a ++ a :: l = List.replicate (k + 1) a ++ l := by
  rw [List.replicate_succ', List.append_assoc]
  rfl

/-- Of `n` clients the first `k` can hold a read lock together, for every `k` below
`2 ^ 32`; the occupancy counter is then the `int` value of `k`. -/
theorem readers_reachable (debug p : Bool) (m : Nat) : ∀ k : Nat, k < UINT_MOD →
    ∃ log, Reachable debug (System.init p (k + m))
      ⟨⟨0, wrapInt (k : Int), p⟩, List.replicate k Pc.reading ++ List.replicate m Pc.idle, log⟩ := by
  intro k
  induction k generalizing m with
  | zero =>
    intro _
    refine ⟨[], [], ?_⟩
    have e0 : wrapInt ((0 : Nat) : Int) = 0 := by decide
    simp only [run, System.init, rwlock.new, e0, Nat.zero_add, List.replicate_zero,
      List.nil_append]
  | succ k ih =>
    intro hk
    obtain ⟨log, hlog⟩ := ih (m + 1) (by omega)
    have hne := wrapInt_ne_neg_one k hk
    have h := read_acquisition_reachable debug (wrapInt (k : Int)) p
      (List.replicate k Pc.reading) (List.replicate m Pc.idle) log hne
    rw [wrapInt_succ, replicate_append_cons] at h
    have e : k + (m + 1) = k + 1 + m := by omega
    rw [e, List.replicate_succ] at hlog
    have e2 : ((k + 1 : Nat) : Int) = (k : Int) + 1 := by push_cast; rfl
    rw [← e2] at h
    exact ⟨_, hlog.trans h⟩

theorem countP_replicate_eq (f : Pc → Bool) (a : Pc) (k : Nat) :
    (List.replicate k a).countP f = if f a = true then k else 0 := by
  induction k with
  | zero => simp
  | succ k ih =>
    rw [List.replicate_succ, List.countP_cons, ih]
    split_ifs <;> rfl

/-- All of `k` clients can hold a read lock together, for every `k` below `2 ^ 32`. -/
theorem all_readers_reachable (debug p : Bool) (k : Nat) (hk : k < UINT_MOD) :
    ∃ log, Reachable debug (System.init p k)
      ⟨⟨0, wrapInt (k : Int), p⟩, List.replicate k Pc.reading, log⟩ := by
  obtain ⟨log, h⟩ := readers_reachable debug p 0 k hk
  rw [Nat.add_zero, List.replicate_zero, List.append_nil] at h
  exact ⟨log, h⟩

/-- C2, as stated, fails: with `2 ^ 31` clients, a state is reachable under well-matched use
in which all of them hold a read lock, no writer holds the lock, and the occupancy counter is
`-2147483648`: it is less than `-1` and it is not the number of readers. -/
theorem occupancy_below_minus_one_reachable :
    ∃ s : System, Reachable false (System.init true 2147483648) s ∧
      s.writers = 0 ∧ s.readers = 2147483648 ∧ s.lock.m_lock_count = -2147483648 ∧
      s.lock.m_lock_count < -1 := by
  obtain ⟨log, h⟩ := all_readers_reachable false true 2147483648 (by unfold UINT_MOD; norm_num)
  have e : wrapInt ((2147483648 : Nat) : Int) = -2147483648 := by
    unfold wrapInt; norm_num
  rw [e] at h
  refine ⟨_, h, ?_, ?_, rfl, by norm_num⟩
  · unfold System.writers
    simp only [countP_replicate_eq, Pc.holdsWrite]
    rfl
  · unfold System.readers
    simp only [countP_replicate_eq, Pc.holdsRead]
    rfl

/-- C2, amended to the range of `int`. In every state reachable from a freshly constructed
lock under well-matched use in which at most `INT_MAX` clients hold a read lock, the
occupancy counter is never less than `-1`; it is `-1` exactly when one writer holds the lock
and no reader does; and otherwise no writer holds the lock and the counter equals the number
of clients holding a read lock (`0` when idle). -/
theorem occupancy_encoding (debug p : Bool) (n : Nat) (s : System)
    (h : Reachable debug (System.init p n) s) (hR : (s.readers : Int) ≤ INT_MAX) :
    -1 ≤ s.lock.m_lock_count ∧
    (s.lock.m_lock_count = -1 ↔ s.writers = 1 ∧ s.readers = 0) ∧
    (s.lock.m_lock_count ≠ -1 →
      s.writers = 0 ∧ s.lock.m_lock_count = (s.readers : Int)) ∧
    (s.writers = 0 ∧ s.readers = 0 → s.lock.m_lock_count = 0) := by
  obtain ⟨hL, -, -⟩ := reachable_inv h
  unfold LockInv UINT_MOD at hL
  unfold INT_MAX at hR
  unfold wrapInt at hL
  omega

/-- Witness of C2 (amended): two clients hold a read lock together, a third has just failed a
write attempt. -/
theorem occupancy_encoding_witness :
    Reachable true (System.init false 3)
      { lock := ⟨0, 2, false⟩, threads := [Pc.reading, Pc.reading, Pc.idle],
        log := [(2, Ret.try_lock_write false), (1, Ret.try_lock_read true),
                (0, Ret.try_lock_read true)] } ∧
    ((2 : Nat) : Int) ≤ INT_MAX ∧
    (-1 ≤ (2 : Int) ∧ ((2 : Int) = -1 ↔ 0 = 1 ∧ 2 = 0) ∧
      ((2 : Int) ≠ -1 → 0 = 0 ∧ (2 : Int) = ((2 : Nat) : Int)) ∧
      (0 = 0 ∧ 2 = 0 → (2 : Int) = 0)) :=
  have hr : Reachable true (System.init false 3)
      { lock := ⟨0, 2, false⟩, threads := [Pc.reading, Pc.reading, Pc.idle],
        log := [(2, Ret.try_lock_write false), (1, Ret.try_lock_read true),
                (0, Ret.try_lock_read true)] } :=
    ⟨[⟨0, Call.lock_read, false⟩, ⟨0, Call.lock_read, false⟩, ⟨0, Call.lock_read, false⟩,
      ⟨1, Call.try_lock_read, false⟩, ⟨1, Call.try_lock_read, false⟩,
      ⟨1, Call.try_lock_read, false⟩, ⟨2, Call.try_lock_write, false⟩], by decide⟩
  ⟨hr, by decide, occupancy_encoding true false 3 _ hr (by decide)⟩

/-! ## The debug check of `unlock_read` under interleaving -/

/-- C6, the code at the failing schedule. In a debug build, client 0 acquires a read lock and
calls `unlock_read`; its decrement on line 67 produces `0`; before its check on line 70
client 1 takes the write lock by `try_lock_write`; the check then reads `-1` and client 0
raises `std::runtime_error`, although every release matched an acquisition. -/
theorem unlock_read_false_alarm :
    run true (System.init true 2)
        [⟨0, Call.try_lock_read, false⟩, ⟨0, Call.try_lock_read, false⟩,
         ⟨0, Call.try_lock_read, false⟩, ⟨0, Call.unlock_read, false⟩]
      = some { lock := ⟨0, 0, true⟩, threads := [Pc.unlock_read_70, Pc.idle],
               log := [(0, Ret.try_lock_read true)] } ∧
    run true (System.init true 2)
        [⟨0, Call.try_lock_read, false⟩, ⟨0, Call.try_lock_read, false⟩,
         ⟨0, Call.try_lock_read, false⟩, ⟨0, Call.unlock_read, false⟩,
         ⟨1, Call.try_lock_write, false⟩, ⟨0, Call.unlock_read, false⟩]
      = some { lock := ⟨0, -1, true⟩, threads := [Pc.idle, Pc.writing],
               log := [(0, Ret.unlock_read (some Exn.runtime_error)),
                       (1, Ret.try_lock_write true), (0, Ret.try_lock_read true)] } := by
  constructor <;> decide

/-! ## Blocking acquisitions without interference -/

theorem try_lock_read_of_true {sp : Bool} {l l1 : rwlock}
    (h : l.try_lock_read sp = (true, l1)) :
    l1 = { l with m_lock_count := wrapInt (l.m_lock_count + 1) } ∧ l.m_lock_count ≠ -1 ∧
    (l.m_is_write_first = false ∨ l.m_write_wait_count = 0) := by
  unfold rwlock.try_lock_read compare_exchange_weak at h
  by_cases hg : l.m_lock_count = -1 ∨ (l.m_is_write_first = true ∧ l.m_write_wait_count > 0)
  · simp only [hg, if_true, Prod.mk.injEq, Bool.false_eq_true, false_and] at h
  · simp only [hg, if_false, true_and] at h
    cases sp
    · simp only [if_true, Prod.mk.injEq, true_and] at h
      refine ⟨h.symm, fun hc => hg (Or.inl hc), ?_⟩
      by_contra hcon
      apply hg
      right
      constructor
      · cases hp : l.m_is_write_first
        · exact absurd (Or.inl hp) hcon
        · rfl
      · have : ¬ l.m_write_wait_count = 0 := fun h0 => hcon (Or.inr h0)
        omega
    · simp at h

theorem try_lock_read_of_false {sp : Bool} {l l1 : rwlock}
    (h : l.try_lock_read sp = (false, l1)) : l1 = l := by
  unfold rwlock.try_lock_read compare_exchange_weak at h
  by_cases hg : l.m_lock_count = -1 ∨ (l.m_is_write_first = true ∧ l.m_write_wait_count > 0)
  · simp only [hg, if_true, Prod.mk.injEq, true_and] at h
    exact h.symm
  · simp only [hg, if_false, true_and] at h
    cases sp
    · simp at h
    · simp only [Bool.true_eq_false, if_false, Prod.mk.injEq, true_and] at h
      exact h.symm

theorem lock_read_loop_result (spur : Nat → Bool) : ∀ (fuel n k : Nat) (l l1 : rwlock)
    (ps : List Pause), rwlock.lock_read_loop spur fuel n k l = some (l1, ps) →
    l1 = { l with m_lock_count := wrapInt (l.m_lock_count + 1) } := by
  intro fuel
  induction fuel with
  | zero => intro n k l l1 ps h; simp [rwlock.lock_read_loop] at h
  | succ fuel ih =>
    intro n k l l1 ps h
    rw [rwlock.lock_read_loop] at h
    split at h
    · rename_i l2 ht
      simp only [Option.some.injEq, Prod.mk.injEq] at h
      rw [← h.1]
      exact (try_lock_read_of_true ht).1
    · rename_i l2 ht
      have e := try_lock_read_of_false ht
      subst e
      simp only [Option.map_eq_some'] at h
      obtain ⟨r, hr, hr2⟩ := h
      have := ih (n + 1) (uincr k) l2 r.1 r.2 hr
      simp only [Prod.mk.injEq] at hr2
      rw [← hr2.1]
      exact this

theorem lock_read_loop_acquires (spur : Nat → Bool) (w : Nat) (c : Int) (p : Bool)
    (hc : c ≠ -1) (hw : p = false ∨ w = 0) : ∀ (fuel n k : Nat),
    (∃ m, n ≤ m ∧ m < n + fuel ∧ spur m = false) →
    ∃ ps, rwlock.lock_read_loop spur fuel n k ⟨w, c, p⟩
      = some (⟨w, wrapInt (c + 1), p⟩, ps) := by
  intro fuel
  induction fuel with
  | zero => intro n k ⟨m, h1, h2, _⟩; omega
  | succ fuel ih =>
    intro n k ⟨m, h1, h2, h3⟩
    rw [rwlock.lock_read_loop]
    cases hs : spur n with
    | false =>
      rw [try_lock_read_true w c p hc hw]
      exact ⟨[], rfl⟩
    | true =>
      rw [try_lock_read_spurious]
      have hne : m ≠ n := by
        intro e
        rw [e, hs] at h3
        exact absurd h3 (by decide)
      obtain ⟨ps, hps⟩ := ih (n + 1) (uincr k) ⟨m, by omega, by omega, h3⟩
      exact ⟨backoff k :: ps, by simp only [hps, Option.map_some']⟩

theorem lock_reads_eq (spurs : Nat → Nat → Bool) (fuel : Nat) (p : Bool) : ∀ (n i c : Nat),
    ((c + n : Nat) : Int) ≤ INT_MAX →
    (∀ t, t < n → ∃ m, m < fuel ∧ spurs (i + t) m = false) →
    lock_reads spurs fuel n i ⟨0, (c : Int), p⟩ = some ⟨0, ((c + n : Nat) : Int), p⟩ := by
  intro n
  induction n with
  | zero => intro i c _ _; rfl
  | succ n ih =>
    intro i c hc hfair
    unfold INT_MAX at hc
    obtain ⟨m, hm, hs⟩ := hfair 0 (by omega)
    obtain ⟨ps, hps⟩ := lock_read_loop_acquires (spurs i) 0 (c : Int) p (by omega)
      (Or.inr rfl) fuel 0 0 ⟨m, by omega, by omega, hs⟩
    have e : wrapInt ((c : Int) + 1) = ((c + 1 : Nat) : Int) := by
      unfold wrapInt; push_cast; omega
    rw [e] at hps
    rw [lock_reads, rwlock.lock_read, hps]
    have := ih (i + 1) (c + 1) (by unfold INT_MAX; push_cast at hc ⊢; omega)
      (fun t ht => by
        obtain ⟨m, hm, hs⟩ := hfair (t + 1) (by omega)
        exact ⟨m, hm, by rw [show i + 1 + t = i + (t + 1) by omega]; exact hs⟩)
    rw [show c + (n + 1) = c + 1 + n by omega]
    exact this

/-- C10. Shared reading. For every `n` up to `INT_MAX`, starting from an idle lock with no
writer holding or waiting, under either priority policy: `n` calls of `lock_read` made with
no release in between all return (each within the fuel, provided one of its first `fuel`
compare-and-swaps does not fail spuriously) and leave the occupancy counter at `n`; so do `n`
calls of `try_lock_read` that do not fail spuriously, none of which is refused at any number
`j < n` of readers already holding the lock; and with `n` clients the state in which all `n`
hold a read lock at the same time, with occupancy `n`, is reachable. -/
theorem shared_reading (debug p : Bool) (n : Nat) (hn : (n : Int) ≤ INT_MAX)
    (spurs : Nat → Nat → Bool) (fuel : Nat)
    (hfair : ∀ i, i < n → ∃ m, m < fuel ∧ spurs i m = false) :
    lock_reads spurs fuel n 0 (rwlock.new p) = some ⟨0, (n : Int), p⟩ ∧
    read_acquisitions n (rwlock.new p) = some ⟨0, (n : Int), p⟩ ∧
    (∀ j : Nat, j < n →
      rwlock.try_lock_read false ⟨0, (j : Int), p⟩ = (true, ⟨0, (j : Int) + 1, p⟩)) ∧
    (∃ log, Reachable debug (System.init p n)
      ⟨⟨0, (n : Int), p⟩, List.replicate n Pc.reading, log⟩) := by
  have hn' := hn
  unfold INT_MAX at hn'
  have en : wrapInt (n : Int) = n := by unfold wrapInt; omega
  refine ⟨?_, ?_, ?_, ?_⟩
  · have := lock_reads_eq spurs fuel p n 0 0 (by rw [Nat.zero_add]; exact hn)
      (fun t ht => by rw [Nat.zero_add]; exact hfair t ht)
    rw [Nat.zero_add] at this
    exact this
  · rw [read_acquisitions_new p n (by unfold UINT_MOD; omega), en]
  · intro j hj
    rw [try_lock_read_true 0 (j : Int) p (by omega) (Or.inr rfl)]
    have : wrapInt ((j : Int) + 1) = (j : Int) + 1 := by unfold wrapInt; omega
    rw [this]
  · obtain ⟨log, h⟩ := all_readers_reachable debug p n (by unfold UINT_MOD; omega)
    rw [en] at h
    exact ⟨log, h⟩

/-- Witness of C10: three readers, the second of which needs two attempts. -/
theorem shared_reading_witness :
    ((3 : Nat) : Int) ≤ INT_MAX ∧
    (∀ i, i < 3 → ∃ m, m < 2 ∧ (fun (i m : Nat) => decide (i = 1 ∧ m = 0)) i m = false) ∧
    lock_reads (fun (i m : Nat) => decide (i = 1 ∧ m = 0)) 2 3 0 (rwlock.new true)
      = some ⟨0, ((3 : Nat) : Int), true⟩ ∧
    read_acquisitions 3 (rwlock.new true) = some ⟨0, ((3 : Nat) : Int), true⟩ ∧
    (∀ j : Nat, j < 3 →
      rwlock.try_lock_read false ⟨0, (j : Int), true⟩ = (true, ⟨0, (j : Int) + 1, true⟩)) ∧
    (∃ log, Reachable false (System.init true 3)
      ⟨⟨0, ((3 : Nat) : Int), true⟩, List.replicate 3 Pc.reading, log⟩) :=
  have hf : ∀ i, i < 3 → ∃ m, m < 2 ∧ (fun (i m : Nat) => decide (i = 1 ∧ m = 0)) i m = false :=
    fun _ _ => ⟨1, by decide, by simp⟩
  ⟨by decide, hf, shared_reading false true 3 (by decide) _ 2 hf⟩

/-! ## Scoped guards -/

theorem try_lock_write_of_true {sp : Bool} {l l1 : rwlock}
    (h : l.try_lock_write sp = (true, l1)) :
    l.m_lock_count = 0 ∧ l1 = { l with m_lock_count := -1 } := by
  unfold rwlock.try_lock_write compare_exchange_weak at h
  by_cases hc : l.m_lock_count = 0 <;> cases sp <;> simp [hc] at h
  exact ⟨hc, h.symm⟩

theorem try_lock_write_of_false {sp : Bool} {l l1 : rwlock}
    (h : l.try_lock_write sp = (false, l1)) : l1 = l := by
  unfold rwlock.try_lock_write compare_exchange_weak at h
  by_cases hc : l.m_lock_count = 0 <;> cases sp <;> simp [hc] at h <;>
    (subst h; cases l; simp_all)

theorem lock_write_loop_result (spur : Nat → Bool) : ∀ (fuel n k : Nat) (l l1 : rwlock)
    (ps : List Pause), rwlock.lock_write_loop spur fuel n k l = some (l1, ps) →
    l.m_lock_count = 0 ∧ l1 = { l with m_lock_count := -1 } := by
  intro fuel
  induction fuel with
  | zero => intro n k l l1 ps h; simp [rwlock.lock_write_loop] at h
  | succ fuel ih =>
    intro n k l l1 ps h
    rw [rwlock.lock_write_loop] at h
    split at h
    · rename_i l2 ht
      simp only [Option.some.injEq, Prod.mk.injEq] at h
      rw [← h.1]
      exact try_lock_write_of_true ht
    · rename_i l2 ht
      have e := try_lock_write_of_false ht
      subst e
      simp only [Option.map_eq_some'] at h
      obtain ⟨r, hr, hr2⟩ := h
      have := ih (n + 1) (uincr k) l2 r.1 r.2 hr
      simp only [Prod.mk.injEq] at hr2
      rw [← hr2.1]
      exact this

theorem udecr_uincr (w : Nat) (hw : w < UINT_MOD) : udecr (uincr w) = w := by
  unfold udecr uincr UINT_MOD at *
  omega

/-- C8. Guards release exactly once on every exit path. For a lock whose counters are in
range and any critical section `body` (returning a value or throwing): when the constructor
of an `rlock_guard` completes, the scope ends with exactly the calls `lock_read` and then
one `unlock_read` made on the lock, the occupancy and waiting-writer counters are back at
their values from before the guard, and the critical section has run; when the constructor
of a `wlock_guard` completes, the scope ends with exactly the calls `lock_write` and then
one `unlock_write`, the lock is as before the guard, and what the critical section returned
or threw leaves the scope. -/
theorem guards_release_once {σ ε α : Type} (debug : Bool) (spur : Nat → Bool) (fuel : Nat)
    (body : σ → Except ε α × σ) (l : rwlock) (d : σ)
    (hl : IsInt l.m_lock_count) (hw : l.m_write_wait_count < UINT_MOD) :
    (∀ (l1 : rwlock) (c : Call), rlock_guard.ctor spur fuel l = some (l1, c) →
      ∃ res, rlock_guard.scope debug spur fuel body l d = some res ∧
        res.calls = [Call.lock_read, Call.unlock_read] ∧
        res.calls.count Call.unlock_read = 1 ∧
        res.lock = (l1.unlock_read debug).2 ∧
        res.lock.m_lock_count = l.m_lock_count ∧
        res.lock.m_write_wait_count = l.m_write_wait_count ∧
        res.data = (body d).2 ∧
        res.outcome = scopeOutcome (l1.unlock_read debug).1 (body d).1) ∧
    (∀ (l1 : rwlock) (c : Call), wlock_guard.ctor spur fuel l = some (l1, c) →
      ∃ res, wlock_guard.scope spur fuel body l d = some res ∧
        res.calls = [Call.lock_write, Call.unlock_write] ∧
        res.calls.count Call.unlock_write = 1 ∧
        res.lock = l1.unlock_write ∧
        res.lock = l ∧
        res.data = (body d).2 ∧
        res.outcome = scopeOutcome none (body d).1) := by
  constructor
  · intro l1 c hctor
    have hctor' := hctor
    unfold rlock_guard.ctor rwlock.lock_read at hctor'
    simp only [Option.map_eq_some', Prod.mk.injEq] at hctor'
    obtain ⟨r, hr, hr1, hr2⟩ := hctor'
    have hres := lock_read_loop_result spur fuel 0 0 l r.1 r.2 hr
    rw [hr1] at hres
    subst hr2
    refine ⟨{ lock := (l1.unlock_read debug).2, data := (body d).2,
              outcome := scopeOutcome (l1.unlock_read debug).1 (body d).1,
              calls := [Call.lock_read, Call.unlock_read] },
      by simp only [rlock_guard.scope, hctor, rlock_guard.dtor], rfl, rfl, rfl, ?_, ?_,
      rfl, rfl⟩
    · simp only [rlock_guard.dtor, unlock_read_snd, hres, wrapInt_pred]
      have : l.m_lock_count + 1 - 1 = l.m_lock_count := by omega
      rw [this]
      exact wrapInt_of_isInt _ hl
    · simp only [rlock_guard.dtor, unlock_read_snd, hres]
  · intro l1 c hctor
    have hctor' := hctor
    unfold wlock_guard.ctor rwlock.lock_write at hctor'
    simp only [Option.map_eq_some', Prod.mk.injEq] at hctor'
    obtain ⟨r, ⟨q, hq, hq2⟩, hr1, hr2⟩ := hctor'
    have hres := lock_write_loop_result spur fuel 0 0 _ q.1 q.2 hq
    subst hr2
    refine ⟨{ lock := l1.unlock_write, data := (body d).2,
              outcome := scopeOutcome none (body d).1,
              calls := [Call.lock_write, Call.unlock_write] },
      by simp only [wlock_guard.scope, hctor, wlock_guard.dtor], rfl, rfl, rfl, ?_,
      rfl, rfl⟩
    simp only [wlock_guard.dtor, rwlock.unlock_write]
    rw [← hr1, ← hq2]
    obtain ⟨h0, hq1⟩ := hres
    simp only at h0 hq1
    rw [hq1]
    have hu := udecr_uincr l.m_write_wait_count hw
    cases l
    simp only at h0 hu ⊢
    rw [hu, h0]
/-- Witness of C8: on a fresh lock, a critical section that throws error `7` after changing
its data; both constructors complete at the first attempt. -/
theorem guards_release_once_witness :
    (IsInt (rwlock.new true).m_lock_count ∧ (rwlock.new true).m_write_wait_count < UINT_MOD ∧
      rlock_guard.ctor (fun _ => false) 1 (rwlock.new true)
        = some (⟨0, 1, true⟩, Call.lock_read) ∧
      wlock_guard.ctor (fun _ => false) 1 (rwlock.new true)
        = some (⟨0, -1, true⟩, Call.lock_write)) ∧
    ((∀ (l1 : rwlock) (c : Call),
        rlock_guard.ctor (fun _ => false) 1 (rwlock.new true) = some (l1, c) →
        ∃ res, rlock_guard.scope true (fun _ => false) 1
            (fun d : Nat => ((Except.error 7 : Except Nat Unit), d + 1)) (rwlock.new true) 0
            = some res ∧
          res.calls = [Call.lock_read, Call.unlock_read] ∧
          res.calls.count Call.unlock_read = 1 ∧
          res.lock = (l1.unlock_read true).2 ∧
          res.lock.m_lock_count = (rwlock.new true).m_lock_count ∧
          res.lock.m_write_wait_count = (rwlock.new true).m_write_wait_count ∧
          res.data = ((fun d : Nat => ((Except.error 7 : Except Nat Unit), d + 1)) 0).2 ∧
          res.outcome = scopeOutcome (l1.unlock_read true).1
            ((fun d : Nat => ((Except.error 7 : Except Nat Unit), d + 1)) 0).1) ∧
     (∀ (l1 : rwlock) (c : Call),
        wlock_guard.ctor (fun _ => false) 1 (rwlock.new true) = some (l1, c) →
        ∃ res, wlock_guard.scope (fun _ => false) 1
            (fun d : Nat => ((Except.error 7 : Except Nat Unit), d + 1)) (rwlock.new true) 0
            = some res ∧
          res.calls = [Call.lock_write, Call.unlock_write] ∧
          res.calls.count Call.unlock_write = 1 ∧
          res.lock = l1.unlock_write ∧
          res.lock = rwlock.new true ∧
          res.data = ((fun d : Nat => ((Except.error 7 : Except Nat Unit), d + 1)) 0).2 ∧
          res.outcome = scopeOutcome none
            ((fun d : Nat => ((Except.error 7 : Except Nat Unit), d + 1)) 0).1)) :=
  ⟨⟨by decide, by decide, by decide, by decide⟩,
    guards_release_once true (fun _ => false) 1
      (fun d : Nat => ((Except.error 7 : Except Nat Unit), d + 1)) (rwlock.new true) 0
      (by decide) (by decide)⟩

/-! ## Writer preference -/

theorem readFailed_beforeCas (loop : Option Nat) : (readFailed loop).beforeCas = true := by
  cases loop <;> rfl

theorem readFailed_notReading (loop : Option Nat) : (readFailed loop).notReading = true := by
  cases loop <;> rfl

theorem beforeCas_of_engaged {pc : Pc} (h : pc.engaged = true) : pc.beforeCas = true := by
  cases pc <;> simp_all [Pc.engaged, Pc.beforeCas]

theorem inLockWrite_of_spinning {pc : Pc} (h : pc.spinning = true) :
    pc.inLockWrite = true := by
  cases pc <;> simp_all [Pc.spinning, Pc.inLockWrite]

theorem holdsWrite_of_engaged {pc : Pc} (h : pc.engaged = true) (hs : ¬ pc.spinning = true) :
    pc.holdsWrite = true := by
  cases pc <;> simp_all [Pc.spinning, Pc.engaged, Pc.holdsWrite]

set_option maxHeartbeats 4000000 in
/-- While a writer waits under writer priority, a client not yet past line 40 stays so, and
its `try_lock_read` fails on the test of line 40. -/
theorem tstep_window {debug : Bool} {l l1 : rwlock} {pc pc1 : Pc} {call : Call} {sp : Bool}
    {ev : Option Ret} (h : tstep debug l pc call sp = some (l1, pc1, ev))
    (hp : l.m_is_write_first = true) (hw : 0 < l.m_write_wait_count)
    (hpc : pc.beforeCas = true) :
    pc1.beforeCas = true ∧ ev ≠ some (Ret.try_lock_read true) ∧
    (pc.readAttempt call = true → l1.m_lock_count = l.m_lock_count) := by
  cases pc <;> cases call <;>
    simp only [tstep, compare_exchange_weak, reduceCtorEq] at h <;>
    (try split_ifs at h) <;>
    simp only [Option.some.injEq, Prod.mk.injEq] at h <;>
    obtain ⟨rfl, rfl, rfl⟩ := h <;>
    simp only [readFailed_beforeCas] <;>
    simp_all [Pc.beforeCas, Pc.readAttempt]

set_option maxHeartbeats 4000000 in
/-- While the occupancy is `-1`, a client that holds nothing acquires no read lock, and its
`try_lock_read` leaves the occupancy as it is. -/
theorem tstep_blocked {debug : Bool} {l l1 : rwlock} {pc pc1 : Pc} {call : Call} {sp : Bool}
    {ev : Option Ret} (h : tstep debug l pc call sp = some (l1, pc1, ev))
    (hc : l.m_lock_count = -1) (hok : pc.casOk) (hnr : pc.holdsRead = false)
    (hnw : pc.holdsWrite = false) :
    ev ≠ some (Ret.try_lock_read true) ∧
    (pc.readAttempt call = true → l1.m_lock_count = l.m_lock_count) := by
  cases pc <;> cases call <;>
    simp only [tstep, compare_exchange_weak, reduceCtorEq] at h <;>
    (try split_ifs at h) <;>
    simp only [Option.some.injEq, Prod.mk.injEq] at h <;>
    obtain ⟨rfl, rfl, rfl⟩ := h <;>
    simp_all [Pc.holdsRead, Pc.holdsWrite, Pc.casOk, Pc.readAttempt]

set_option maxHeartbeats 4000000 in
/-- An engaged client that stays engaged does not go back to spinning. -/
theorem tstep_engaged {debug : Bool} {l l1 : rwlock} {pc pc1 : Pc} {call : Call} {sp : Bool}
    {ev : Option Ret} (h : tstep debug l pc call sp = some (l1, pc1, ev))
    (he : pc.engaged = true) (hs : pc1.spinning = true) : pc.spinning = true := by
  cases pc <;> cases call <;>
    simp only [tstep, compare_exchange_weak, reduceCtorEq] at h <;>
    (try split_ifs at h) <;>
    simp only [Option.some.injEq, Prod.mk.injEq] at h <;>
    obtain ⟨rfl, rfl, rfl⟩ := h <;>
    simp_all [Pc.engaged, Pc.spinning]

set_option maxHeartbeats 4000000 in
/-- A client engaged in a write acquisition makes no step of a `try_lock_read`. -/
theorem tstep_of_engaged {debug : Bool} {l l1 : rwlock} {pc pc1 : Pc} {call : Call} {sp : Bool}
    {ev : Option Ret} (h : tstep debug l pc call sp = some (l1, pc1, ev))
    (he : pc.engaged = true) :
    ev ≠ some (Ret.try_lock_read true) ∧ pc.readAttempt call = false := by
  cases pc <;> cases call <;>
    simp only [tstep, compare_exchange_weak, reduceCtorEq] at h <;>
    (try split_ifs at h) <;>
    simp only [Option.some.injEq, Prod.mk.injEq] at h <;>
    obtain ⟨rfl, rfl, rfl⟩ := h <;>
    simp_all [Pc.engaged, Pc.readAttempt]

theorem getElem?_set_same (pc pc1 : Pc) : ∀ (l : List Pc) (i : Nat), l[i]? = some pc →
    (l.set i pc1)[i]? = some pc1 := by
  intro l
  induction l with
  | nil => intro i h; simp at h
  | cons x xs ih =>
    intro i h
    cases i with
    | zero => simp
    | succ i =>
      simp only [List.getElem?_cons_succ] at h
      simpa using ih i h

theorem inside_iff {s : System} {j : Nat} :
    s.inside j = true ↔ ∃ pc, s.threads[j]? = some pc ∧ pc.engaged = true := by
  unfold System.inside
  cases hx : s.threads[j]? with
  | none => simp
  | some pc => simp

theorem runInside_inside {debug : Bool} {j : Nat} {s s1 : System} {sched : List Action}
    (h : runInside debug j s sched = some s1) : s.inside j = true := by
  cases sched with
  | nil =>
    simp only [runInside] at h
    split_ifs at h with hj
    exact hj
  | cons a rest =>
    simp only [runInside] at h
    split_ifs at h with hj
    exact hj

theorem window_step {debug : Bool} {n i j : Nat} {s s1 : System} {a : Action}
    (hn : n < UINT_MOD) (hwin : s.Window n i j) (h : step debug s a = some s1)
    (hj1 : s1.inside j = true) :
    s1.Window n i j ∧
    (∃ ev, s1.log = pushRet a.tid ev s.log ∧
      (a.tid = i → ev ≠ some (Ret.try_lock_read true))) ∧
    (s.readAttemptBy i a = true → s1.lock.m_lock_count = s.lock.m_lock_count) := by
  obtain ⟨hinv, hlen, hp, pci, pcj, hpci, hpcj, heng, hsp⟩ := hwin
  have hinv1 := step_preserves_inv hinv h
  obtain ⟨pc, l1, pc1, ev, hpc, ht, hl, hth, hlog⟩ := step_inv h
  have hlen1 : s1.threads.length = n := by rw [hth, List.length_set, hlen]
  have hp1 : s1.lock.m_is_write_first = true := by rw [hl, (tstep_wait ht).2, hp]
  obtain ⟨pcj1, hpcj1, heng1⟩ := inside_iff.mp hj1
  by_cases hti : a.tid = i
  · -- client `i` moves
    rw [hti] at hpc
    have hpceq : pc = pci := by
      rw [hpci] at hpc
      exact (Option.some.inj hpc).symm
    subst hpceq
    have hpci1 : s1.threads[i]? = some pc1 := by
      rw [hth, hti]
      exact getElem?_set_same pc pc1 s.threads i hpc
    have hra : s.readAttemptBy i a = true → pc.readAttempt a.call = true := by
      intro hra
      unfold System.readAttemptBy at hra
      rw [hti, hpc] at hra
      simp only [Bool.and_eq_true] at hra
      exact hra.2
    by_cases hij : i = j
    · -- it is the writer itself
      subst hij
      have hpceq : pc = pcj := by
        rw [hpcj] at hpc
        exact (Option.some.inj hpc).symm
      subst hpceq
      have hpceq1 : pc1 = pcj1 := by
        rw [hpcj1] at hpci1
        exact (Option.some.inj hpci1).symm
      subst hpceq1
      obtain ⟨h2, h3⟩ := tstep_of_engaged ht heng
      refine ⟨⟨hinv1, hlen1, hp1, pc1, pc1, hpci1, hpci1, heng1,
        fun _ => beforeCas_of_engaged heng1⟩, ⟨ev, hlog, fun _ => h2⟩, ?_⟩
      intro hr
      rw [h3] at hra
      exact absurd (hra hr) (by decide)
    · have hpcjeq : s1.threads[j]? = some pcj := by
        rw [hth, hti, List.getElem?_set_ne hij]
        exact hpcj
      by_cases hspin : pcj.spinning = true
      · -- the writer is still waiting: the counter shows it
        have hw : 0 < s.lock.m_write_wait_count := by
          have h1 := le_countP_of_getElem? Pc.inLockWrite s.threads j pcj hpcj
          rw [inLockWrite_of_spinning hspin] at h1
          simp only [if_true] at h1
          have h2 : s.threads.countP Pc.inLockWrite ≤ s.threads.length := List.countP_le_length _
          rw [hinv.2.2]
          unfold System.waiting
          unfold UINT_MOD at *
          omega
        obtain ⟨h1, h2, h3⟩ := tstep_window ht hp hw (hsp hspin)
        refine ⟨⟨hinv1, hlen1, hp1, pc1, pcj, hpci1, hpcjeq, heng, fun _ => h1⟩,
          ⟨ev, hlog, fun _ => h2⟩, ?_⟩
        intro hr
        rw [hl]
        exact h3 (hra hr)
      · -- the writer holds the lock: the occupancy is `-1`
        have hwj := holdsWrite_of_engaged heng hspin
        have hW := le_countP_of_getElem? Pc.holdsWrite s.threads j pcj hpcj
        rw [hwj] at hW
        simp only [if_true] at hW
        have hL := hinv.1
        unfold LockInv System.writers at hL
        have hc : s.lock.m_lock_count = -1 := by
          rcases hL with ⟨h0, -, -⟩ | ⟨-, -, h⟩
          · omega
          · exact h
        have hnw : pc.holdsWrite = false := by
          by_contra hcon
          simp only [Bool.not_eq_false] at hcon
          have := two_le_countP Pc.holdsWrite s.threads i j pc pcj hij hpc hpcj hcon hwj
          rcases hL with ⟨h0, -, -⟩ | ⟨h1, -, -⟩ <;> omega
        have hnr : pc.holdsRead = false := by
          by_contra hcon
          simp only [Bool.not_eq_false] at hcon
          have hR := le_countP_of_getElem? Pc.holdsRead s.threads i pc hpc
          rw [hcon] at hR
          simp only [if_true] at hR
          unfold System.readers at hL
          rcases hL with ⟨h0, -, -⟩ | ⟨-, h1, -⟩ <;> omega
        have hok : pc.casOk := hinv.2.1 pc (mem_of_getElem? hpc)
        obtain ⟨h2, h3⟩ := tstep_blocked ht hc hok hnr hnw
        refine ⟨⟨hinv1, hlen1, hp1, pc1, pcj, hpci1, hpcjeq, heng,
          fun hs => absurd hs hspin⟩, ⟨ev, hlog, fun _ => h2⟩, ?_⟩
        intro hr
        rw [hl]
        exact h3 (hra hr)
  · -- another client moves
    have hpci1 : s1.threads[i]? = some pci := by
      rw [hth, List.getElem?_set_ne hti]
      exact hpci
    have hnot : s.readAttemptBy i a = true → s1.lock.m_lock_count = s.lock.m_lock_count := by
      intro hra
      unfold System.readAttemptBy at hra
      simp only [Bool.and_eq_true, beq_iff_eq] at hra
      exact absurd hra.1 hti
    by_cases htj : a.tid = j
    · rw [htj] at hpc
      have hpceq : pc = pcj := by
        rw [hpcj] at hpc
        exact (Option.some.inj hpc).symm
      subst hpceq
      have hx : s1.threads[j]? = some pc1 := by
        rw [hth, htj]
        exact getElem?_set_same pc pc1 s.threads j hpc
      have hpceq1 : pc1 = pcj1 := by
        rw [hpcj1] at hx
        exact (Option.some.inj hx).symm
      subst hpceq1
      exact ⟨⟨hinv1, hlen1, hp1, pci, pc1, hpci1, hpcj1, heng1,
        fun hs => hsp (tstep_engaged ht heng hs)⟩, ⟨ev, hlog, fun e => absurd e hti⟩, hnot⟩
    · have hpcjeq : s1.threads[j]? = some pcj := by
        rw [hth, List.getElem?_set_ne htj]
        exact hpcj
      exact ⟨⟨hinv1, hlen1, hp1, pci, pcj, hpci1, hpcjeq, heng, hsp⟩,
        ⟨ev, hlog, fun e => absurd e hti⟩, hnot⟩

theorem window_run {debug : Bool} {n i j : Nat} (hn : n < UINT_MOD) :
    ∀ (sched : List Action) (s0 s1 : System), s0.Window n i j →
      runInside debug j s0 sched = some s1 →
      (∃ new, s1.log = new ++ s0.log ∧ ∀ r, (i, Ret.try_lock_read r) ∈ new → r = false) ∧
      occupancyKept debug i s0 sched = true := by
  intro sched
  induction sched with
  | nil =>
    intro s0 s1 _ h
    simp only [runInside] at h
    split_ifs at h
    simp only [Option.some.injEq] at h
    subst h
    exact ⟨⟨[], rfl, by simp⟩, rfl⟩
  | cons a rest ih =>
    intro s0 s1 hwin h
    simp only [runInside] at h
    split_ifs at h with hj
    split at h
    · simp at h
    · rename_i s2 hs2
      obtain ⟨hwin2, ⟨ev, hlog, hev⟩, hkeep⟩ :=
        window_step hn hwin hs2 (runInside_inside h)
      obtain ⟨⟨new, hnew, hall⟩, hocc⟩ := ih s2 s1 hwin2 h
      constructor
      · refine ⟨new ++ pushRet a.tid ev [], ?_, ?_⟩
        · rw [hnew, hlog, List.append_assoc]
          cases ev <;> rfl
        · intro r hr
          rw [List.mem_append] at hr
          rcases hr with hr | hr
          · exact hall r hr
          · cases ev with
            | none => simp [pushRet] at hr
            | some e =>
              simp only [pushRet, List.mem_singleton, Prod.mk.injEq] at hr
              obtain ⟨hi, he⟩ := hr
              cases r with
              | false => rfl
              | true => exact absurd (by rw [he]) (hev hi.symm)
      · simp only [occupancyKept, hs2, hocc, Bool.and_true, Bool.or_eq_true,
          Bool.not_eq_true', decide_eq_true_eq]
        by_cases hra : s0.readAttemptBy i a = true
        · exact Or.inr (hkeep hra)
        · simp only [Bool.not_eq_true] at hra
          exact Or.inl hra

/-- C7. On a lock constructed with writer priority and shared by `n` clients, `n` below
`2 ^ 32`, take a reachable state and a run from it during which some client `j` is engaged
in a write acquisition throughout: it has incremented the waiting-writer counter and has not
yet released the lock it acquires, a span that contains its `lock_write` call from the
increment to the return.  Let client `i` be anywhere in the first state but between the
check of line 40 and the compare-and-swap of line 43 of a `try_lock_read`: outside every
call, in a `lock_read` loop that was spinning before the writer came, holding or releasing a
lock, in a write acquisition of its own.  Then every `try_lock_read` call of client `i` that
completes in the run, made directly or by `lock_read`, returns `false`, and no step of a
`try_lock_read` call of client `i` changes the occupancy counter, whatever its value. -/
theorem writer_preference (debug : Bool) (n i j : Nat) (s0 s1 : System) (sched : List Action)
    (pci : Pc) (hn : n < UINT_MOD) (h0 : Reachable debug (System.init true n) s0)
    (hi : s0.threads[i]? = some pci) (hb : pci.beforeCas = true)
    (hrun : runInside debug j s0 sched = some s1) :
    (∃ new, s1.log = new ++ s0.log ∧ ∀ r, (i, Ret.try_lock_read r) ∈ new → r = false) ∧
    occupancyKept debug i s0 sched = true := by
  have hlen : ∀ s, Reachable debug (System.init true n) s →
      s.threads.length = n ∧ s.lock.m_is_write_first = true := by
    intro s hs
    obtain ⟨sch, hsch⟩ := hs
    refine run_preserves (P := fun s => s.threads.length = n ∧ s.lock.m_is_write_first = true)
      ?_ sch _ _ ⟨by simp [System.init], rfl⟩ hsch
    intro s s1 a hp hst
    obtain ⟨pc, l1, pc1, ev, -, ht, hl, hth, -⟩ := step_inv hst
    exact ⟨by rw [hth, List.length_set, hp.1], by rw [hl, (tstep_wait ht).2, hp.2]⟩
  obtain ⟨pcj, hpcj, heng⟩ := inside_iff.mp (runInside_inside hrun)
  exact window_run hn sched s0 s1
    ⟨reachable_inv h0, (hlen s0 h0).1, (hlen s0 h0).2, pci, pcj, hi, hpcj, heng,
      fun _ => hb⟩ hrun

/-- Witness of C7.  Client 0 called `lock_read` while client 1 held the write lock and is
spinning in its loop; client 1 has released, client 2 has got a read lock (occupancy `1`),
and client 1 has entered `lock_write`.  In the run, the loop of client 0 calls
`try_lock_read` and loads occupancy `1`, the attempt of client 1 fails, and the call of
client 0 fails on the waiting-writer test of line 40. -/
theorem writer_preference_witness :
    (3 < UINT_MOD ∧
     Reachable false (System.init true 3)
       ⟨⟨1, 1, true⟩, [Pc.lock_read_48 1, Pc.lock_write_85 0, Pc.reading],
         [(2, Ret.try_lock_read true), (1, Ret.unlock_write), (0, Ret.try_lock_read false),
          (1, Ret.try_lock_write true)]⟩ ∧
     [Pc.lock_read_48 1, Pc.lock_write_85 0, Pc.reading][0]? = some (Pc.lock_read_48 1) ∧
     (Pc.lock_read_48 1).beforeCas = true ∧
     runInside false 1
        ⟨⟨1, 1, true⟩, [Pc.lock_read_48 1, Pc.lock_write_85 0, Pc.reading],
         [(2, Ret.try_lock_read true), (1, Ret.unlock_write), (0, Ret.try_lock_read false),
          (1, Ret.try_lock_write true)]⟩
        [⟨0, Call.lock_read, false⟩, ⟨1, Call.lock_write, false⟩, ⟨0, Call.lock_read, false⟩]
      = some ⟨⟨1, 1, true⟩, [Pc.lock_read_48 2, Pc.lock_write_85 1, Pc.reading],
          [(0, Ret.try_lock_read false), (1, Ret.try_lock_write false),
           (2, Ret.try_lock_read true), (1, Ret.unlock_write), (0, Ret.try_lock_read false),
           (1, Ret.try_lock_write true)]⟩) ∧
    ((∃ new, [(0, Ret.try_lock_read false), (1, Ret.try_lock_write false),
           (2, Ret.try_lock_read true), (1, Ret.unlock_write), (0, Ret.try_lock_read false),
           (1, Ret.try_lock_write true)]
          = new ++ [(2, Ret.try_lock_read true), (1, Ret.unlock_write),
            (0, Ret.try_lock_read false), (1, Ret.try_lock_write true)] ∧
        ∀ r, (0, Ret.try_lock_read r) ∈ new → r = false) ∧
      occupancyKept false 0
        ⟨⟨1, 1, true⟩, [Pc.lock_read_48 1, Pc.lock_write_85 0, Pc.reading],
         [(2, Ret.try_lock_read true), (1, Ret.unlock_write), (0, Ret.try_lock_read false),
          (1, Ret.try_lock_write true)]⟩
        [⟨0, Call.lock_read, false⟩, ⟨1, Call.lock_write, false⟩, ⟨0, Call.lock_read, false⟩]
        = true) :=
  have hr : Reachable false (System.init true 3)
      ⟨⟨1, 1, true⟩, [Pc.lock_read_48 1, Pc.lock_write_85 0, Pc.reading],
        [(2, Ret.try_lock_read true), (1, Ret.unlock_write), (0, Ret.try_lock_read false),
         (1, Ret.try_lock_write true)]⟩ :=
    ⟨[⟨1, Call.try_lock_write, false⟩, ⟨0, Call.lock_read, false⟩,
      ⟨0, Call.lock_read, false⟩, ⟨1, Call.unlock_write, false⟩,
      ⟨2, Call.try_lock_read, false⟩, ⟨2, Call.try_lock_read, false⟩,
      ⟨2, Call.try_lock_read, false⟩, ⟨1, Call.lock_write, false⟩], by decide⟩
  ⟨⟨by decide, hr, by decide, by decide, by decide⟩,
    writer_preference false 3 0 1
      ⟨⟨1, 1, true⟩, [Pc.lock_read_48 1, Pc.lock_write_85 0, Pc.reading],
        [(2, Ret.try_lock_read true), (1, Ret.unlock_write), (0, Ret.try_lock_read false),
         (1, Ret.try_lock_write true)]⟩
      ⟨⟨1, 1, true⟩, [Pc.lock_read_48 2, Pc.lock_write_85 1, Pc.reading],
        [(0, Ret.try_lock_read false), (1, Ret.try_lock_write false),
         (2, Ret.try_lock_read true), (1, Ret.unlock_write), (0, Ret.try_lock_read false),
         (1, Ret.try_lock_write true)]⟩
      [⟨0, Call.lock_read, false⟩, ⟨1, Call.lock_write, false⟩, ⟨0, Call.lock_read, false⟩]
      (Pc.lock_read_48 1) (by decide) hr (by decide) (by decide) (by decide)⟩

/-- Of `k + m` clients the first `k` can be inside `lock_write` together, before any attempt;
the waiting-writer counter is then `k` modulo `2 ^ 32`. -/
theorem writers_waiting_reachable (debug p : Bool) (m : Nat) : ∀ k : Nat,
    Reachable debug (System.init p (k + m))
      ⟨⟨k % UINT_MOD, 0, p⟩,
        List.replicate k (Pc.lock_write_85 0) ++ List.replicate m Pc.idle, []⟩ := by
  intro k
  induction k generalizing m with
  | zero =>
    refine ⟨[], ?_⟩
    simp only [run, System.init, rwlock.new, Nat.zero_add, List.replicate_zero,
      List.nil_append, Nat.zero_mod]
  | succ k ih =>
    have h0 := ih (m + 1)
    have e : k + (m + 1) = k + 1 + m := by omega
    rw [e, List.replicate_succ] at h0
    have ht : tstep debug ⟨k % UINT_MOD, 0, p⟩ Pc.idle Call.lock_write false
        = some (⟨(k + 1) % UINT_MOD, 0, p⟩, Pc.lock_write_85 0, none) := by
      have : uincr (k % UINT_MOD) = (k + 1) % UINT_MOD := by
        unfold uincr UINT_MOD; omega
      simp only [tstep, this]
    have h1 := Reachable.of_step (step_at (List.replicate k (Pc.lock_write_85 0))
      (List.replicate m Pc.idle) [] Call.lock_write false ht)
    rw [replicate_append_cons] at h1
    exact h0.trans h1

theorem runInside_cons {debug : Bool} {j : Nat} {s s1 : System} {a : Action}
    {rest : List Action} (hj : s.inside j = true) (h : step debug s a = some s1) :
    runInside debug j s (a :: rest) = runInside debug j s1 rest := by
  simp only [runInside, hj, if_true, h]

theorem inside_zero (l : rwlock) (pc : Pc) (rest : List Pc) (log : List (Nat × Ret))
    (h : pc.engaged = true) : System.inside ⟨l, pc :: rest, log⟩ 0 = true := by
  simp only [System.inside, List.getElem?_cons_zero, h]

/-- After a multiple of `2 ^ 32` clients have entered `lock_write` the waiting-writer counter
is `0` again, and one more client acquires a read lock while all of them wait. -/
theorem wrap_scenario (debug : Bool) (k : Nat) (hk : 0 < k) (hmod : k % UINT_MOD = 0) :
    ∃ (s0 s1 : System) (sched : List Action),
      Reachable debug (System.init true (k + 1)) s0 ∧
      s0.threads[k]? = some Pc.idle ∧ s0.inside 0 = true ∧
      runInside debug 0 s0 sched = some s1 ∧
      s0.log = [] ∧ s1.log = [(k, Ret.try_lock_read true)] ∧
      s0.lock.m_lock_count = 0 ∧ s1.lock.m_lock_count = 1 := by
  obtain ⟨k, rfl⟩ : ∃ k', k = k' + 1 := ⟨k - 1, by omega⟩
  have h0 := writers_waiting_reachable debug true 1 (k + 1)
  rw [hmod] at h0
  have hlen : (List.replicate (k + 1) (Pc.lock_write_85 0)).length = k + 1 :=
    List.length_replicate _ _
  have h1 : tstep debug ⟨0, 0, true⟩ Pc.idle Call.try_lock_read false
      = some (⟨0, 0, true⟩, Pc.try_lock_read_40 none 0, none) := rfl
  have h2 : tstep debug ⟨0, 0, true⟩ (Pc.try_lock_read_40 none 0) Call.try_lock_read false
      = some (⟨0, 0, true⟩, Pc.try_lock_read_43 none 0, none) := by
    simp [tstep]
  have h3 : tstep debug ⟨0, 0, true⟩ (Pc.try_lock_read_43 none 0) Call.try_lock_read false
      = some (⟨0, 1, true⟩, Pc.reading, some (Ret.try_lock_read true)) := by
    simp [tstep, compare_exchange_weak, wrapInt]
  have s1 := step_at (List.replicate (k + 1) (Pc.lock_write_85 0)) [] [] _ _ h1
  have s2 := step_at (List.replicate (k + 1) (Pc.lock_write_85 0)) [] [] _ _ h2
  have s3 := step_at (List.replicate (k + 1) (Pc.lock_write_85 0)) [] [] _ _ h3
  rw [hlen] at s1 s2 s3
  simp only [pushRet] at s1 s2 s3
  have hin : ∀ (l : rwlock) (pc : Pc) (log : List (Nat × Ret)),
      System.inside ⟨l, List.replicate (k + 1) (Pc.lock_write_85 0) ++ [pc], log⟩ 0 = true := by
    intro l pc log
    rw [List.replicate_succ, List.cons_append]
    exact inside_zero _ _ _ _ rfl
  refine ⟨⟨⟨0, 0, true⟩, List.replicate (k + 1) (Pc.lock_write_85 0) ++ [Pc.idle], []⟩,
    ⟨⟨0, 1, true⟩, List.replicate (k + 1) (Pc.lock_write_85 0) ++ [Pc.reading],
      [(k + 1, Ret.try_lock_read true)]⟩,
    [⟨k + 1, Call.try_lock_read, false⟩, ⟨k + 1, Call.try_lock_read, false⟩,
    ⟨k + 1, Call.try_lock_read, false⟩], h0, ?_, hin _ _ _, ?_, rfl, rfl, rfl, rfl⟩
  · have := getElem?_append_cons Pc.idle [] (List.replicate (k + 1) (Pc.lock_write_85 0))
    rw [hlen] at this
    exact this
  · rw [runInside_cons (hin _ _ _) s1, runInside_cons (hin _ _ _) s2,
      runInside_cons (hin _ _ _) s3]
    simp only [runInside, pushRet, hin, if_true]

/-- Remark on the bound `n < 2 ^ 32` on the number of clients.  The model lets any number of
clients share the lock, and the waiting-writer counter is a 32-bit `unsigned int`: with
`2 ^ 32` clients inside `lock_write` at once, a population of threads that no machine runs,
the counter is `0` again, and a `try_lock_read` call by one more client returns `true` and
raises the occupancy counter from `0` to `1` while all of them wait. -/
theorem writer_preference_client_bound :
    ∃ (s0 s1 : System) (sched : List Action),
      Reachable true (System.init true (4294967296 + 1)) s0 ∧
      s0.threads[4294967296]? = some Pc.idle ∧ s0.inside 0 = true ∧
      runInside true 0 s0 sched = some s1 ∧
      s0.log = [] ∧ s1.log = [(4294967296, Ret.try_lock_read true)] ∧
      s0.lock.m_lock_count = 0 ∧ s1.lock.m_lock_count = 1 :=
  wrap_scenario true 4294967296 (by norm_num) (by unfold UINT_MOD; norm_num)

/-! ## Release of the write lock -/

/-- C11. `unlock_write` is unconditional. For every lock state it returns a lock (the call
has no failing outcome) whose occupancy counter is `0` and whose waiting-writer counter and
priority flag are those of before; the result is the same whatever the occupancy was, so no
check that a writer held the lock is made; applying it twice gives the same state as applying
it once; and among interleaved clients it is one atomic step with this effect, which
completes the call without an error in either build. -/
theorem unlock_write_unconditional (l : rwlock) :
    l.unlock_write.m_lock_count = 0 ∧
    l.unlock_write.m_write_wait_count = l.m_write_wait_count ∧
    l.unlock_write.m_is_write_first = l.m_is_write_first ∧
    (∀ c : Int, rwlock.unlock_write { l with m_lock_count := c } = l.unlock_write) ∧
    l.unlock_write.unlock_write = l.unlock_write ∧
    (∀ debug sp : Bool, tstep debug l Pc.writing Call.unlock_write sp
      = some (l.unlock_write, Pc.idle, some Ret.unlock_write)) := by
  refine ⟨rfl, rfl, rfl, ?_, rfl, ?_⟩
  · intro c
    rfl
  · intro debug sp
    rfl

/-! ## The pauses of the spin loops -/

/-! ### Calls run alone that return -/

theorem lock_read_loop_pauses (spur : Nat → Bool) : ∀ (fuel n k : Nat) (l l1 : rwlock)
    (ps : List Pause), k < UINT_MOD →
    rwlock.lock_read_loop spur fuel n k l = some (l1, ps) →
    ∀ i, i < ps.length → ps[i]? = some (backoff ((k + i) % UINT_MOD)) := by
  intro fuel
  induction fuel with
  | zero => intro n k l l1 ps _ h; simp [rwlock.lock_read_loop] at h
  | succ fuel ih =>
    intro n k l l1 ps hk h i hi
    rw [rwlock.lock_read_loop] at h
    split at h
    · simp only [Option.some.injEq, Prod.mk.injEq] at h
      rw [← h.2] at hi
      simp at hi
    · rename_i l2 ht
      simp only [Option.map_eq_some'] at h
      obtain ⟨r, hr, hr2⟩ := h
      simp only [Prod.mk.injEq] at hr2
      have hk1 : uincr k < UINT_MOD := by unfold uincr UINT_MOD; omega
      have hrec := ih (n + 1) (uincr k) l2 r.1 r.2 hk1 hr
      rw [← hr2.2] at hi ⊢
      cases i with
      | zero =>
        simp only [List.getElem?_cons_zero, Nat.add_zero]
        rw [Nat.mod_eq_of_lt hk]
      | succ i =>
        simp only [List.length_cons] at hi
        simp only [List.getElem?_cons_succ]
        rw [hrec i (by omega)]
        congr 2
        unfold uincr UINT_MOD
        omega

theorem lock_write_loop_pauses (spur : Nat → Bool) : ∀ (fuel n k : Nat) (l l1 : rwlock)
    (ps : List Pause), k < UINT_MOD →
    rwlock.lock_write_loop spur fuel n k l = some (l1, ps) →
    ∀ i, i < ps.length → ps[i]? = some (backoff ((k + i) % UINT_MOD)) := by
  intro fuel
  induction fuel with
  | zero => intro n k l l1 ps _ h; simp [rwlock.lock_write_loop] at h
  | succ fuel ih =>
    intro n k l l1 ps hk h i hi
    rw [rwlock.lock_write_loop] at h
    split at h
    · simp only [Option.some.injEq, Prod.mk.injEq] at h
      rw [← h.2] at hi
      simp at hi
    · rename_i l2 ht
      simp only [Option.map_eq_some'] at h
      obtain ⟨r, hr, hr2⟩ := h
      simp only [Prod.mk.injEq] at hr2
      have hk1 : uincr k < UINT_MOD := by unfold uincr UINT_MOD; omega
      have hrec := ih (n + 1) (uincr k) l2 r.1 r.2 hk1 hr
      rw [← hr2.2] at hi ⊢
      cases i with
      | zero =>
        simp only [List.getElem?_cons_zero, Nat.add_zero]
        rw [Nat.mod_eq_of_lt hk]
      | succ i =>
        simp only [List.length_cons] at hi
        simp only [List.getElem?_cons_succ]
        rw [hrec i (by omega)]
        congr 2
        unfold uincr UINT_MOD
        omega
theorem lock_read_pauses {spur : Nat → Bool} {fuel : Nat} {l l1 : rwlock} {ps : List Pause}
    (h : l.lock_read spur fuel = some (l1, ps)) (i : Nat) (hi : i < ps.length) :
    ps[i]? = some (backoff (i % UINT_MOD)) := by
  have := lock_read_loop_pauses spur fuel 0 0 l l1 ps (by decide) h i hi
  rw [Nat.zero_add] at this
  exact this

theorem lock_write_pauses {spur : Nat → Bool} {fuel : Nat} {l l1 : rwlock} {ps : List Pause}
    (h : l.lock_write spur fuel = some (l1, ps)) (i : Nat) (hi : i < ps.length) :
    ps[i]? = some (backoff (i % UINT_MOD)) := by
  unfold rwlock.lock_write at h
  simp only [Option.map_eq_some', Prod.mk.injEq] at h
  obtain ⟨r, hr, -, hr2⟩ := h
  rw [← hr2] at hi ⊢
  have := lock_write_loop_pauses spur fuel 0 0 _ r.1 r.2 (by decide) hr i hi
  rw [Nat.zero_add] at this
  exact this

/-! ### Calls among other clients -/

theorem uincr_lt (k : Nat) : uincr k < UINT_MOD := by
  unfold uincr UINT_MOD
  omega

theorem step_other {debug : Bool} {s s1 : System} {a : Action} {i : Nat}
    (h : step debug s a = some s1) (hne : a.tid ≠ i) : s1.threads[i]? = s.threads[i]? := by
  obtain ⟨pc, l1, pc1, ev, -, -, -, hth, -⟩ := step_inv h
  rw [hth, List.getElem?_set_ne hne]

theorem step_self {debug : Bool} {s s1 : System} {a : Action}
    (h : step debug s a = some s1) :
    ∃ pc l1 pc1 ev, s.threads[a.tid]? = some pc ∧
      tstep debug s.lock pc a.call a.spurious = some (l1, pc1, ev) ∧
      s1.threads[a.tid]? = some pc1 ∧ s.attempt debug a = attemptOf pc ev := by
  obtain ⟨pc, l1, pc1, ev, hpc, ht, -, hth, -⟩ := step_inv h
  refine ⟨pc, l1, pc1, ev, hpc, ht, ?_, ?_⟩
  · rw [hth]
    exact getElem?_set_same pc pc1 s.threads a.tid hpc
  · simp only [System.attempt, hpc, ht]

theorem tstep_acquired {debug : Bool} {l l1 : rwlock} {pc pc1 : Pc} {call : Call} {sp : Bool}
    {ev : Option Ret} (hk : pc.acquired call = true)
    (h : tstep debug l pc call sp = some (l1, pc1, ev)) :
    attemptOf pc ev = none ∧ pc1.acquired call = true := by
  match call, pc, hk, h with
  | Call.lock_write, Pc.lock_write_100, _, h =>
    simp only [tstep, Option.some.injEq, Prod.mk.injEq] at h
    obtain ⟨-, rfl, rfl⟩ := h
    exact ⟨rfl, rfl⟩

theorem tstep_loop {debug : Bool} {l l1 : rwlock} {pc pc1 : Pc} {call : Call} {sp : Bool}
    {ev : Option Ret} {k : Nat} (hk : pc.loopCounter call = some k)
    (h : tstep debug l pc call sp = some (l1, pc1, ev)) :
    (attemptOf pc ev = none ∧ pc1.loopCounter call = some k) ∨
    (attemptOf pc ev = some (false, some (backoff k)) ∧
      pc1.loopCounter call = some (uincr k)) ∨
    (attemptOf pc ev = some (true, none) ∧ pc1.acquired call = true) := by
  match call, pc, hk, h with
  | Call.lock_read, Pc.idle, hk, h =>
    simp only [Pc.loopCounter, Option.some.injEq] at hk
    simp only [tstep, Option.some.injEq, Prod.mk.injEq] at h
    obtain ⟨-, rfl, rfl⟩ := h
    subst hk
    exact Or.inl ⟨rfl, rfl⟩
  | Call.lock_write, Pc.idle, hk, h =>
    simp only [Pc.loopCounter, Option.some.injEq] at hk
    simp only [tstep, Option.some.injEq, Prod.mk.injEq] at h
    obtain ⟨-, rfl, rfl⟩ := h
    subst hk
    exact Or.inl ⟨rfl, rfl⟩
  | Call.lock_read, Pc.lock_read_48 k1, hk, h =>
    simp only [Pc.loopCounter, Option.some.injEq] at hk
    simp only [tstep, Option.some.injEq, Prod.mk.injEq] at h
    obtain ⟨-, rfl, rfl⟩ := h
    subst hk
    exact Or.inl ⟨rfl, rfl⟩
  | Call.lock_read, Pc.try_lock_read_40 (some k1) c, hk, h =>
    simp only [Pc.loopCounter, Option.some.injEq] at hk
    subst hk
    simp only [tstep] at h
    split_ifs at h
    · simp only [Option.some.injEq, Prod.mk.injEq] at h
      obtain ⟨-, rfl, rfl⟩ := h
      exact Or.inr (Or.inl ⟨rfl, rfl⟩)
    · simp only [Option.some.injEq, Prod.mk.injEq] at h
      obtain ⟨-, rfl, rfl⟩ := h
      exact Or.inl ⟨rfl, rfl⟩
  | Call.lock_read, Pc.try_lock_read_43 (some k1) c, hk, h =>
    simp only [Pc.loopCounter, Option.some.injEq] at hk
    subst hk
    simp only [tstep] at h
    split_ifs at h
    · simp only [Option.some.injEq, Prod.mk.injEq] at h
      obtain ⟨-, rfl, rfl⟩ := h
      exact Or.inr (Or.inr ⟨rfl, rfl⟩)
    · simp only [Option.some.injEq, Prod.mk.injEq] at h
      obtain ⟨-, rfl, rfl⟩ := h
      exact Or.inr (Or.inl ⟨rfl, rfl⟩)
  | Call.lock_write, Pc.lock_write_85 k1, hk, h =>
    simp only [Pc.loopCounter, Option.some.injEq] at hk
    subst hk
    simp only [tstep] at h
    split_ifs at h
    · simp only [Option.some.injEq, Prod.mk.injEq] at h
      obtain ⟨-, rfl, rfl⟩ := h
      exact Or.inr (Or.inr ⟨rfl, rfl⟩)
    · simp only [Option.some.injEq, Prod.mk.injEq] at h
      obtain ⟨-, rfl, rfl⟩ := h
      exact Or.inr (Or.inl ⟨rfl, rfl⟩)

theorem attemptsBy_acquired {debug : Bool} {i : Nat} {call : Call} :
    ∀ (sched : List Action) (s : System) (pc : Pc), s.threads[i]? = some pc →
      pc.acquired call = true → (∀ a ∈ sched, a.tid = i → a.call = call) →
      attemptsBy debug i s sched = [] := by
  intro sched
  induction sched with
  | nil => intro s pc _ _ _; rfl
  | cons a rest ih =>
    intro s pc hpc hacq hs
    rw [attemptsBy]
    split
    · rfl
    · rename_i s1 hstep
      have hrest : ∀ b ∈ rest, b.tid = i → b.call = call :=
        fun b hb => hs b (List.mem_cons_of_mem a hb)
      by_cases hi : a.tid = i
      · rw [if_pos hi]
        obtain ⟨pc0, l1, pc1, ev, hpc0, ht, hpc1, hatt⟩ := step_self hstep
        rw [hi] at hpc0 hpc1
        rw [hpc] at hpc0
        obtain rfl := Option.some.inj hpc0
        rw [hs a (List.mem_cons_self a rest) hi] at ht
        obtain ⟨h1, h2⟩ := tstep_acquired hacq ht
        rw [hatt, h1, ih s1 pc1 hpc1 h2 hrest]
        rfl
      · rw [if_neg hi]
        exact ih s1 pc (by rw [step_other hstep hi]; exact hpc) hacq hrest

theorem attemptsBy_loop {debug : Bool} {i : Nat} {call : Call} :
    ∀ (sched : List Action) (s : System) (pc : Pc) (k : Nat), s.threads[i]? = some pc →
      pc.loopCounter call = some k → k < UINT_MOD →
      (∀ a ∈ sched, a.tid = i → a.call = call) →
      ∀ (n : Nat) (r : Bool) (p : Option Pause),
        (attemptsBy debug i s sched)[n]? = some (r, p) →
        (r = false → p = some (backoff ((k + n) % UINT_MOD))) ∧
        (r = true → p = none ∧ (attemptsBy debug i s sched).length = n + 1) ∧
        (∀ m, m < n → ∃ q, (attemptsBy debug i s sched)[m]? = some (false, q)) := by
  intro sched
  induction sched with
  | nil =>
    intro s pc k _ _ _ _ n r p h
    simp [attemptsBy] at h
  | cons a rest ih =>
    intro s pc k hpc hk hlt hs n r p
    rw [attemptsBy]
    split
    · intro h
      simp at h
    · rename_i s1 hstep
      have hrest : ∀ b ∈ rest, b.tid = i → b.call = call :=
        fun b hb => hs b (List.mem_cons_of_mem a hb)
      by_cases hi : a.tid = i
      · rw [if_pos hi]
        obtain ⟨pc0, l1, pc1, ev, hpc0, ht, hpc1, hatt⟩ := step_self hstep
        rw [hi] at hpc0 hpc1
        rw [hpc] at hpc0
        obtain rfl := Option.some.inj hpc0
        rw [hs a (List.mem_cons_self a rest) hi] at ht
        rw [hatt]
        rcases tstep_loop hk ht with ⟨h1, h2⟩ | ⟨h1, h2⟩ | ⟨h1, h2⟩
        · rw [h1]
          exact ih s1 pc1 k hpc1 h2 hlt hrest n r p
        · rw [h1]
          simp only [Option.toList, List.singleton_append]
          have hrec := ih s1 pc1 (uincr k) hpc1 h2 (uincr_lt k) hrest
          cases n with
          | zero =>
            intro h
            simp only [List.getElem?_cons_zero, Option.some.injEq, Prod.mk.injEq] at h
            obtain ⟨rfl, rfl⟩ := h
            refine ⟨fun _ => ?_, fun h => by simp at h, fun m hm => by omega⟩
            rw [Nat.add_zero, Nat.mod_eq_of_lt hlt]
          | succ n =>
            intro h
            simp only [List.getElem?_cons_succ] at h
            obtain ⟨e1, e2, e3⟩ := hrec n r p h
            refine ⟨fun hr => ?_, fun hr => ?_, fun m hm => ?_⟩
            · rw [e1 hr]
              congr 2
              unfold uincr UINT_MOD
              omega
            · exact ⟨(e2 hr).1, by simp only [List.length_cons, (e2 hr).2]⟩
            · cases m with
              | zero => exact ⟨some (backoff k), List.getElem?_cons_zero⟩
              | succ m =>
                simp only [List.getElem?_cons_succ]
                exact e3 m (by omega)
        · rw [h1, attemptsBy_acquired rest s1 pc1 hpc1 h2 hrest]
          simp only [Option.toList, List.append_nil]
          intro h
          cases n with
          | zero =>
            simp only [List.getElem?_cons_zero, Option.some.injEq, Prod.mk.injEq] at h
            obtain ⟨rfl, rfl⟩ := h
            exact ⟨fun h => by simp at h, fun _ => ⟨rfl, rfl⟩, fun m hm => by omega⟩
          | succ n => simp at h
      · rw [if_neg hi]
        exact ih s1 pc k (by rw [step_other hstep hi]; exact hpc) hk hlt hrest n r p

theorem step_eq {debug : Bool} {s : System} {a : Action} {pc pc1 : Pc} {l1 : rwlock}
    {ev : Option Ret} (hpc : s.threads[a.tid]? = some pc)
    (ht : tstep debug s.lock pc a.call a.spurious = some (l1, pc1, ev)) :
    step debug s a = some ⟨l1, s.threads.set a.tid pc1, pushRet a.tid ev s.log⟩ ∧
    s.attempt debug a = attemptOf pc ev := by
  simp only [step, System.attempt, hpc, ht, and_self]

/-- While the write lock is held, every two steps of a `lock_read` loop are one failed
attempt. -/
theorem attemptsBy_held {debug : Bool} {i : Nat} : ∀ (m : Nat) (s : System) (pc : Pc),
    s.lock.m_lock_count = -1 → s.threads[i]? = some pc →
    (pc = Pc.idle ∨ ∃ k, pc = Pc.lock_read_48 k) →
    (attemptsBy debug i s (List.replicate (2 * m) ⟨i, Call.lock_read, false⟩)).length = m := by
  intro m
  induction m with
  | zero => intro s pc _ _ _; rfl
  | succ m ih =>
    intro s pc hc hpc hpc2
    have e : 2 * (m + 1) = (2 * m + 1) + 1 := by omega
    rw [e, List.replicate_succ, List.replicate_succ]
    obtain ⟨k0, ht1⟩ : ∃ k0, tstep debug s.lock pc Call.lock_read false
        = some (s.lock, Pc.try_lock_read_40 (some k0) (-1), none) := by
      rcases hpc2 with rfl | ⟨k, rfl⟩
      · exact ⟨0, by simp only [tstep, hc]⟩
      · exact ⟨k, by simp only [tstep, hc]⟩
    obtain ⟨hs1, ha1⟩ := step_eq (a := ⟨i, Call.lock_read, false⟩) hpc ht1
    have hpc1 := getElem?_set_same pc (Pc.try_lock_read_40 (some k0) (-1)) s.threads i hpc
    have ht2 : tstep debug s.lock (Pc.try_lock_read_40 (some k0) (-1)) Call.lock_read false
        = some (s.lock, Pc.lock_read_48 (uincr k0), some (Ret.try_lock_read false)) := by
      simp only [tstep, true_or, if_true, readFailed]
    obtain ⟨hs2, ha2⟩ := step_eq
      (s := ⟨s.lock, s.threads.set i (Pc.try_lock_read_40 (some k0) (-1)),
        pushRet i none s.log⟩) (a := ⟨i, Call.lock_read, false⟩) hpc1 ht2
    have hpc3 := getElem?_set_same _ (Pc.lock_read_48 (uincr k0)) _ i hpc1
    rw [attemptsBy, hs1]
    simp only [if_true, ha1]
    rw [attemptsBy, hs2]
    simp only [if_true, ha2]
    simp only [attemptOf, Option.toList, List.nil_append, List.singleton_append,
      List.length_cons]
    exact congrArg (fun x => x + 1)
      (ih ⟨s.lock, (s.threads.set i (Pc.try_lock_read_40 (some k0) (-1))).set i
          (Pc.lock_read_48 (uincr k0)),
        pushRet i (some (Ret.try_lock_read false)) (pushRet i none s.log)⟩
        (Pc.lock_read_48 (uincr k0)) hc hpc3 (Or.inr ⟨_, rfl⟩))

/-- C12, as stated, fails at `n = 2 ^ 32`.  Client 1 holds the write lock and client 0 calls
`lock_read`: every attempt of client 0 fails on the test of line 40, and after the failed
attempt number `2 ^ 32` (counted from `0`) the loop counter, a 32-bit `unsigned int`, has
wrapped to `0`, so the loop yields instead of sleeping one millisecond. -/
theorem backoff_restarts_after_wrap :
    (attemptsBy false 0 (System.init true 2)
      (⟨1, Call.try_lock_write, false⟩ ::
        List.replicate (2 * 4294967298) ⟨0, Call.lock_read, false⟩))[4294967296]?
      = some (false, some Pause.yield) ∧
    (32 : Nat) ≤ 4294967296 ∧ Pause.yield ≠ Pause.sleep_for 1 := by
  refine ⟨?_, by norm_num, by decide⟩
  have hstep : step false (System.init true 2) ⟨1, Call.try_lock_write, false⟩
      = some ⟨⟨0, -1, true⟩, [Pc.idle, Pc.writing], [(1, Ret.try_lock_write true)]⟩ := by
    decide
  have hlen : (attemptsBy false 0 (System.init true 2)
      (⟨1, Call.try_lock_write, false⟩ ::
        List.replicate (2 * 4294967298) ⟨0, Call.lock_read, false⟩)).length = 4294967298 := by
    rw [attemptsBy, hstep]
    simp only [Nat.succ_ne_zero, if_false]
    exact attemptsBy_held 4294967298 _ Pc.idle rfl rfl (Or.inl rfl)
  have hs : ∀ a ∈ (⟨1, Call.try_lock_write, false⟩ ::
      List.replicate (2 * 4294967298) (⟨0, Call.lock_read, false⟩ : Action)),
      a.tid = 0 → a.call = Call.lock_read := by
    intro a ha h0
    rcases List.mem_cons.1 ha with rfl | ha
    · simp at h0
    · rw [List.eq_of_mem_replicate ha]
  have hlt : 4294967296 < (attemptsBy false 0 (System.init true 2)
      (⟨1, Call.try_lock_write, false⟩ ::
        List.replicate (2 * 4294967298) ⟨0, Call.lock_read, false⟩)).length := by
    rw [hlen]; norm_num
  obtain ⟨⟨r, p⟩, he⟩ : ∃ e, (attemptsBy false 0 (System.init true 2)
      (⟨1, Call.try_lock_write, false⟩ ::
        List.replicate (2 * 4294967298) ⟨0, Call.lock_read, false⟩))[4294967296]? = some e :=
    ⟨_, List.getElem?_eq_getElem hlt⟩
  obtain ⟨h1, h2, -⟩ := @attemptsBy_loop false 0 Call.lock_read _
    (System.init true 2) Pc.idle 0 rfl rfl (by decide) hs 4294967296 r p he
  rw [he]
  cases r with
  | true =>
    have := (h2 rfl).2
    rw [hlen] at this
    norm_num at this
  | false =>
    rw [h1 rfl]
    have e : (0 + 4294967296) % UINT_MOD = 0 := by unfold UINT_MOD; norm_num
    rw [e]
    rfl

/-- C12, amended to the width of the loop counter.  Among any number of other clients, under
any interleaving and whatever makes an attempt fail (the lock held, a writer waiting, a
compare-and-swap that fails), take a client that calls `lock_read` and a client that calls
`lock_write`, both from outside every call.  The attempts of each call are failures up to
the one that succeeds, which is the last and is followed by no pause; and the pause taken
after the `n`-th failed attempt (counted from `0`) is the staged action for the loop counter
`k = n mod 2 ^ 32`, a 32-bit `unsigned int`: a yield when `k < 16`, a zero-duration sleep
when `16 ≤ k < 32`, a sleep of one millisecond when `32 ≤ k`.  So for every `n` below
`2 ^ 32` the loop yields when `n < 16`, sleeps for zero milliseconds when `16 ≤ n < 32` and
sleeps one millisecond when `32 ≤ n`; and the two loops take the same action after the same
`n`. -/
theorem staged_backoff (debug : Bool) (ir iw : Nat) (sr sw : System)
    (schedr schedw : List Action)
    (hir : sr.threads[ir]? = some Pc.idle) (hiw : sw.threads[iw]? = some Pc.idle)
    (hsr : ∀ a ∈ schedr, a.tid = ir → a.call = Call.lock_read)
    (hsw : ∀ a ∈ schedw, a.tid = iw → a.call = Call.lock_write) (n : Nat) :
    (∀ r p, (attemptsBy debug ir sr schedr)[n]? = some (r, p) →
      (∀ m, m < n → ∃ q, (attemptsBy debug ir sr schedr)[m]? = some (false, q)) ∧
      (r = true → p = none ∧ (attemptsBy debug ir sr schedr).length = n + 1) ∧
      (r = false →
        p = some (backoff (n % UINT_MOD)) ∧
        (n < 16 → p = some Pause.yield) ∧
        (16 ≤ n → n < 32 → p = some (Pause.sleep_for 0)) ∧
        (32 ≤ n → n < UINT_MOD → p = some (Pause.sleep_for 1)))) ∧
    (∀ r p, (attemptsBy debug iw sw schedw)[n]? = some (r, p) →
      (∀ m, m < n → ∃ q, (attemptsBy debug iw sw schedw)[m]? = some (false, q)) ∧
      (r = true → p = none ∧ (attemptsBy debug iw sw schedw).length = n + 1) ∧
      (r = false →
        p = some (backoff (n % UINT_MOD)) ∧
        (n < 16 → p = some Pause.yield) ∧
        (16 ≤ n → n < 32 → p = some (Pause.sleep_for 0)) ∧
        (32 ≤ n → n < UINT_MOD → p = some (Pause.sleep_for 1)))) ∧
    (∀ p q, (attemptsBy debug ir sr schedr)[n]? = some (false, p) →
      (attemptsBy debug iw sw schedw)[n]? = some (false, q) → p = q) ∧
    (n % UINT_MOD < 16 → backoff (n % UINT_MOD) = Pause.yield) ∧
    (16 ≤ n % UINT_MOD → n % UINT_MOD < 32 → backoff (n % UINT_MOD) = Pause.sleep_for 0) ∧
    (32 ≤ n % UINT_MOD → backoff (n % UINT_MOD) = Pause.sleep_for 1) := by
  have stage : ∀ p : Option Pause, p = some (backoff (n % UINT_MOD)) →
      (n < 16 → p = some Pause.yield) ∧
      (16 ≤ n → n < 32 → p = some (Pause.sleep_for 0)) ∧
      (32 ≤ n → n < UINT_MOD → p = some (Pause.sleep_for 1)) := by
    intro p h
    refine ⟨?_, ?_, ?_⟩
    · intro h2
      have h1 : n < UINT_MOD := by unfold UINT_MOD; omega
      rw [h, Nat.mod_eq_of_lt h1]
      simp [backoff, h2]
    · intro h2 h3
      have h1 : n < UINT_MOD := by unfold UINT_MOD; omega
      rw [h, Nat.mod_eq_of_lt h1]
      have : ¬ n < 16 := by omega
      simp [backoff, this, h3]
    · intro h2 h1
      rw [h, Nat.mod_eq_of_lt h1]
      have h16 : ¬ n < 16 := by omega
      have h32 : ¬ n < 32 := by omega
      simp [backoff, h16, h32]
  have hr := @attemptsBy_loop debug ir Call.lock_read schedr sr Pc.idle 0 hir rfl
    (by decide) hsr n
  have hw := @attemptsBy_loop debug iw Call.lock_write schedw sw Pc.idle 0 hiw rfl
    (by decide) hsw n
  rw [Nat.zero_add] at hr hw
  refine ⟨?_, ?_, ?_, ?_, ?_, ?_⟩
  · intro r p h
    obtain ⟨h1, h2, h3⟩ := hr r p h
    exact ⟨h3, h2, fun e => ⟨h1 e, stage p (h1 e)⟩⟩
  · intro r p h
    obtain ⟨h1, h2, h3⟩ := hw r p h
    exact ⟨h3, h2, fun e => ⟨h1 e, stage p (h1 e)⟩⟩
  · intro p q h1 h2
    rw [(hr false p h1).1 rfl, (hw false q h2).1 rfl]
  · intro h
    simp [backoff, h]
  · intro h1 h2
    have : ¬ n % UINT_MOD < 16 := by omega
    simp [backoff, this, h2]
  · intro h
    have h16 : ¬ n % UINT_MOD < 16 := by omega
    have h32 : ¬ n % UINT_MOD < 32 := by omega
    simp [backoff, h16, h32]

set_option maxRecDepth 100000 in
/-- Witness of C12 (amended): client 1 holds the write lock while client 0 calls `lock_read`
and, in a second run, `lock_write`; the first 33 attempts of client 0 fail, on the test of
line 40 and on the compare-and-swap of line 78, and are looked at after the failed attempt
number 32. -/
theorem staged_backoff_witness :
    (System.init true 2).threads[0]? = some Pc.idle ∧
    (attemptsBy false 0 (System.init true 2)
      (⟨1, Call.try_lock_write, false⟩ :: List.replicate 66 ⟨0, Call.lock_read, false⟩))[32]?
      = some (false, some (Pause.sleep_for 1)) ∧
    (attemptsBy false 0 (System.init true 2)
      (⟨1, Call.try_lock_write, false⟩ :: List.replicate 34 ⟨0, Call.lock_write, false⟩))[32]?
      = some (false, some (Pause.sleep_for 1)) ∧
    some (Pause.sleep_for 1) = some (backoff (32 % UINT_MOD)) := by
  have hr : (attemptsBy false 0 (System.init true 2)
      (⟨1, Call.try_lock_write, false⟩ :: List.replicate 66 ⟨0, Call.lock_read, false⟩))[32]?
      = some (false, some (Pause.sleep_for 1)) := by decide
  have hw : (attemptsBy false 0 (System.init true 2)
      (⟨1, Call.try_lock_write, false⟩ :: List.replicate 34 ⟨0, Call.lock_write, false⟩))[32]?
      = some (false, some (Pause.sleep_for 1)) := by decide
  have h := staged_backoff false 0 0 (System.init true 2) (System.init true 2)
    (⟨1, Call.try_lock_write, false⟩ :: List.replicate 66 ⟨0, Call.lock_read, false⟩)
    (⟨1, Call.try_lock_write, false⟩ :: List.replicate 34 ⟨0, Call.lock_write, false⟩)
    (by decide) (by decide) (by decide) (by decide) 32
  exact ⟨by decide, hr, hw, ((h.1 false _ hr).2.2 rfl).1⟩

/-! ## Accounting of the waiting writers -/

theorem reachable_length {debug p : Bool} {n : Nat} {s : System}
    (h : Reachable debug (System.init p n) s) : s.threads.length = n := by
  obtain ⟨sch, hsch⟩ := h
  refine run_preserves (P := fun s => s.threads.length = n) ?_ sch _ _
    (by simp [System.init]) hsch
  intro s s1 a hp hst
  obtain ⟨pc, l1, pc1, ev, -, -, -, hth, -⟩ := step_inv hst
  rw [hth, List.length_set, hp]

theorem Reachable.step {debug : Bool} {s0 s s1 : System} {a : Action}
    (h : Reachable debug s0 s) (hst : step debug s a = some s1) : Reachable debug s0 s1 :=
  h.trans (Reachable.of_step hst)

theorem readFailed_ne_lock_write_100 (loop : Option Nat) :
    readFailed loop ≠ Pc.lock_write_100 := by
  cases loop <;> simp [readFailed]

set_option maxHeartbeats 4000000 in
/-- Which steps touch the waiting-writer counter, and where `lock_write` goes next. -/
theorem tstep_accounting {debug : Bool} {l l1 : rwlock} {pc pc1 : Pc} {call : Call}
    {sp : Bool} {ev : Option Ret} (h : tstep debug l pc call sp = some (l1, pc1, ev)) :
    ((pc = Pc.idle ∧ call = Call.lock_write) →
      pc1 = Pc.lock_write_85 0 ∧ l1.m_write_wait_count = uincr l.m_write_wait_count ∧
      l1.m_lock_count = l.m_lock_count) ∧
    (pc = Pc.lock_write_100 →
      pc1 = Pc.writing ∧ l1.m_write_wait_count = udecr l.m_write_wait_count ∧
      l1.m_lock_count = l.m_lock_count ∧ ev = some Ret.lock_write) ∧
    (∀ k, pc = Pc.lock_write_85 k →
      (pc1 = Pc.lock_write_100 ∧ l.m_lock_count = 0 ∧ l1.m_lock_count = -1) ∨
      (pc1 = Pc.lock_write_85 (uincr k) ∧ l1.m_lock_count = l.m_lock_count)) ∧
    (¬ (pc = Pc.idle ∧ call = Call.lock_write) → pc ≠ Pc.lock_write_100 →
      l1.m_write_wait_count = l.m_write_wait_count) ∧
    (pc1 = Pc.lock_write_100 → ∃ k, pc = Pc.lock_write_85 k) := by
  cases pc <;> cases call <;>
    simp only [tstep, compare_exchange_weak, reduceCtorEq] at h <;>
    (try split_ifs at h) <;>
    simp only [Option.some.injEq, Prod.mk.injEq] at h <;>
    obtain ⟨rfl, rfl, rfl⟩ := h <;>
    simp_all [readFailed_ne_lock_write_100]
theorem reachable_wait_eq {debug p : Bool} {n : Nat} {s : System} (hn : n < UINT_MOD)
    (h : Reachable debug (System.init p n) s) : s.lock.m_write_wait_count = s.waiting := by
  have h1 := (reachable_inv h).2.2
  have h2 := reachable_length h
  have h3 : s.threads.countP Pc.inLockWrite ≤ s.threads.length := List.countP_le_length _
  rw [h1]
  unfold System.waiting at *
  exact Nat.mod_eq_of_lt (by omega)

theorem lock_write_loop_acquires (spur : Nat → Bool) (w : Nat) (p : Bool) :
    ∀ (fuel n k : Nat), (∃ m, n ≤ m ∧ m < n + fuel ∧ spur m = false) →
    ∃ ps, rwlock.lock_write_loop spur fuel n k ⟨w, 0, p⟩ = some (⟨w, -1, p⟩, ps) := by
  intro fuel
  induction fuel with
  | zero => intro n k ⟨m, h1, h2, _⟩; omega
  | succ fuel ih =>
    intro n k ⟨m, h1, h2, h3⟩
    rw [rwlock.lock_write_loop]
    cases hs : spur n with
    | false =>
      have : rwlock.try_lock_write false ⟨w, 0, p⟩ = (true, ⟨w, -1, p⟩) := by
        simp [rwlock.try_lock_write, compare_exchange_weak]
      rw [this]
      exact ⟨[], rfl⟩
    | true =>
      have : rwlock.try_lock_write true ⟨w, 0, p⟩ = (false, ⟨w, 0, p⟩) := by
        simp [rwlock.try_lock_write, compare_exchange_weak]
      rw [this]
      have hne : m ≠ n := by
        intro e
        rw [e, hs] at h3
        exact absurd h3 (by decide)
      obtain ⟨ps, hps⟩ := ih (n + 1) (uincr k) ⟨m, by omega, by omega, h3⟩
      exact ⟨backoff k :: ps, by simp only [hps, Option.map_some']⟩

theorem lock_write_result {spur : Nat → Bool} {fuel : Nat} {l l1 : rwlock} {ps : List Pause}
    (hw : l.m_write_wait_count < UINT_MOD) (h : l.lock_write spur fuel = some (l1, ps)) :
    l.m_lock_count = 0 ∧
    l1 = ⟨l.m_write_wait_count, -1, l.m_is_write_first⟩ := by
  unfold rwlock.lock_write at h
  simp only [Option.map_eq_some', Prod.mk.injEq] at h
  obtain ⟨r, hr, hr1, -⟩ := h
  obtain ⟨h0, hq⟩ := lock_write_loop_result spur fuel 0 0 _ r.1 r.2 hr
  simp only at h0 hq
  refine ⟨h0, ?_⟩
  rw [← hr1, hq]
  simp only [udecr_uincr _ hw]

/-- C13, amended to fewer than `2 ^ 32` clients. In every state reachable from a freshly
constructed lock shared by fewer than `2 ^ 32` clients, the waiting-writer counter equals the
number of clients inside `lock_write` between its increment and its decrement.  Of the steps
a client can take from such a state: entering `lock_write` adds exactly one to the counter,
before any attempt; an attempt of the loop leaves the counter alone and is the only way to
the decrement, which it reaches exactly when its swap from `0` to `-1` took effect; the
decrement takes exactly one off a counter that is positive, so it does not underflow, and
with it `lock_write` returns, the occupancy counter being `-1` and the waiting-writer counter
the number of other clients still inside `lock_write` (`0` when none is); every other step
leaves the counter unchanged.  Run without interference on a lock with the counter in range,
`lock_write` returns when the lock is idle and one of its compare-and-swaps does not fail
spuriously, and when it returns the counter has its value from before the call and the
occupancy counter is `-1`. -/
theorem waiting_writer_accounting (debug p : Bool) (n : Nat) (s : System) (hn : n < UINT_MOD)
    (h : Reachable debug (System.init p n) s) :
    s.lock.m_write_wait_count = s.waiting ∧
    (∀ (a : Action) (s1 : System) (pc : Pc), step debug s a = some s1 →
      s.threads[a.tid]? = some pc →
      ∃ pc1, s1.threads[a.tid]? = some pc1 ∧
        ((pc = Pc.idle ∧ a.call = Call.lock_write) →
          pc1 = Pc.lock_write_85 0 ∧
          s1.lock.m_write_wait_count = s.lock.m_write_wait_count + 1 ∧
          s1.lock.m_lock_count = s.lock.m_lock_count) ∧
        (∀ k, pc = Pc.lock_write_85 k →
          s1.lock.m_write_wait_count = s.lock.m_write_wait_count ∧
          ((pc1 = Pc.lock_write_100 ∧ s.lock.m_lock_count = 0 ∧ s1.lock.m_lock_count = -1) ∨
           (pc1 = Pc.lock_write_85 (uincr k) ∧ s1.lock.m_lock_count = s.lock.m_lock_count))) ∧
        (pc1 = Pc.lock_write_100 → ∃ k, pc = Pc.lock_write_85 k) ∧
        (pc = Pc.lock_write_100 →
          pc1 = Pc.writing ∧ 0 < s.lock.m_write_wait_count ∧
          s1.lock.m_write_wait_count + 1 = s.lock.m_write_wait_count ∧
          s1.log = (a.tid, Ret.lock_write) :: s.log ∧
          s1.lock.m_lock_count = -1 ∧
          s1.lock.m_write_wait_count = s1.waiting ∧
          (s1.waiting = 0 → s1.lock.m_write_wait_count = 0)) ∧
        (¬ (pc = Pc.idle ∧ a.call = Call.lock_write) → pc ≠ Pc.lock_write_100 →
          s1.lock.m_write_wait_count = s.lock.m_write_wait_count)) ∧
    (∀ (spur : Nat → Bool) (fuel : Nat) (l : rwlock), l.m_write_wait_count < UINT_MOD →
      (l.m_lock_count = 0 → (∃ m, m < fuel ∧ spur m = false) →
        ∃ l1 ps, l.lock_write spur fuel = some (l1, ps)) ∧
      (∀ l1 ps, l.lock_write spur fuel = some (l1, ps) →
        l1.m_write_wait_count = l.m_write_wait_count ∧ l1.m_lock_count = -1 ∧
        l1.m_is_write_first = l.m_is_write_first ∧ l.m_lock_count = 0)) := by
  have hw := reachable_wait_eq hn h
  refine ⟨hw, ?_, ?_⟩
  · intro a s1 pc hst hpc
    have h1 : Reachable debug (System.init p n) s1 := h.step hst
    have hw1 := reachable_wait_eq hn h1
    have hinv1 := reachable_inv h1
    obtain ⟨pc', l1, pc1, ev, hpc', ht, hl, hth, hlog⟩ := step_inv hst
    have e : pc' = pc := by
      rw [hpc] at hpc'
      exact (Option.some.inj hpc').symm
    subst e
    have hpc1 : s1.threads[a.tid]? = some pc1 := by
      rw [hth]
      exact getElem?_set_same pc' pc1 s.threads a.tid hpc
    have hT := countP_set_add Pc.inLockWrite pc1 s.threads a.tid pc' hpc
    have hT' : s1.waiting + (if pc'.inLockWrite = true then 1 else 0)
        = s.waiting + (if pc1.inLockWrite = true then 1 else 0) := by
      unfold System.waiting
      rw [hth]
      exact hT
    obtain ⟨a1, a2, a3, a4, a5⟩ := tstep_accounting ht
    rw [← hl] at a1 a2 a3 a4
    refine ⟨pc1, hpc1, ?_, ?_, a5, ?_, a4⟩
    · intro hc
      obtain ⟨b1, -, b3⟩ := a1 hc
      refine ⟨b1, ?_, b3⟩
      rw [hc.1, b1] at hT'
      simp only [Pc.inLockWrite, Bool.false_eq_true, if_false, if_true] at hT'
      omega
    · intro k hk
      refine ⟨a4 (by rw [hk]; simp) (by rw [hk]; simp), a3 k hk⟩
    · intro hc
      obtain ⟨b1, -, b3, b4⟩ := a2 hc
      rw [hc, b1] at hT'
      simp only [Pc.inLockWrite, Bool.false_eq_true, if_false, if_true] at hT'
      have hcount : s1.lock.m_lock_count = -1 := by
        have hW := le_countP_of_getElem? Pc.holdsWrite s1.threads a.tid pc1 hpc1
        rw [b1] at hW
        simp only [Pc.holdsWrite, if_true] at hW
        have hL := hinv1.1
        unfold LockInv System.writers at hL
        rcases hL with ⟨h0, -, -⟩ | ⟨-, -, hm⟩
        · omega
        · exact hm
      refine ⟨b1, by omega, by omega, ?_, hcount, hw1, fun h0 => by omega⟩
      rw [hlog, b4]
      rfl
  · intro spur fuel l hlw
    constructor
    · intro h0 ⟨m, hm, hs⟩
      obtain ⟨ps, hps⟩ := lock_write_loop_acquires spur (uincr l.m_write_wait_count)
        l.m_is_write_first fuel 0 0 ⟨m, by omega, by omega, hs⟩
      cases l with
      | mk w c q =>
        simp only at h0 hps
        subst h0
        exact ⟨⟨udecr (uincr w), -1, q⟩, ps, by
          unfold rwlock.lock_write
          simp only [hps, Option.map_some']⟩
    · intro l1 ps hret
      obtain ⟨h0, hl1⟩ := lock_write_result hlw hret
      rw [hl1]
      exact ⟨rfl, rfl, rfl, h0⟩
/-- Witness of C13 (amended): of two clients, client 1 has entered `lock_write`. -/
theorem waiting_writer_accounting_witness :
    (2 < UINT_MOD ∧
     Reachable true (System.init true 2) ⟨⟨1, 0, true⟩, [Pc.idle, Pc.lock_write_85 0], []⟩) ∧
    (1 : Nat) = System.waiting ⟨⟨1, 0, true⟩, [Pc.idle, Pc.lock_write_85 0], []⟩ ∧
    (∃ l1 ps, rwlock.lock_write (fun m => decide (m < 2)) 3 ⟨5, 0, true⟩ = some (l1, ps)) ∧
    (∀ l1 ps, rwlock.lock_write (fun m => decide (m < 2)) 3 ⟨5, 0, true⟩ = some (l1, ps) →
      l1.m_write_wait_count = 5 ∧ l1.m_lock_count = -1 ∧ l1.m_is_write_first = true ∧
      (0 : Int) = 0) :=
  have hr : Reachable true (System.init true 2)
      ⟨⟨1, 0, true⟩, [Pc.idle, Pc.lock_write_85 0], []⟩ :=
    ⟨[⟨1, Call.lock_write, false⟩], by decide⟩
  have h := waiting_writer_accounting true true 2
    ⟨⟨1, 0, true⟩, [Pc.idle, Pc.lock_write_85 0], []⟩ (by decide) hr
  have hs := h.2.2 (fun m => decide (m < 2)) 3 ⟨5, 0, true⟩ (by decide)
  ⟨⟨by decide, hr⟩, h.1, hs.1 rfl ⟨2, by decide, by decide⟩, hs.2⟩

/-- With a multiple of `2 ^ 32` clients inside `lock_write` the counter shows `0`, and the
decrement of the one that acquires wraps it to `2 ^ 32 - 1`. -/
theorem waiting_wrap_scenario (debug : Bool) (k : Nat) (hmod : (k + 1) % UINT_MOD = 0) :
    ∃ (s s2 s3 : System) (a : Action),
      Reachable debug (System.init true (k + 1)) s ∧
      s.waiting = k + 1 ∧ s.lock.m_write_wait_count = 0 ∧
      Reachable debug (System.init true (k + 1)) s2 ∧
      s2.threads[0]? = some Pc.lock_write_100 ∧ s2.lock.m_write_wait_count = 0 ∧
      step debug s2 a = some s3 ∧ s3.lock.m_write_wait_count = 4294967295 := by
  have h0 := writers_waiting_reachable debug true 0 (k + 1)
  rw [hmod, Nat.add_zero, List.replicate_zero, List.append_nil] at h0
  have hwait : System.waiting ⟨⟨0, 0, true⟩, List.replicate (k + 1) (Pc.lock_write_85 0), []⟩
      = k + 1 := by
    unfold System.waiting
    simp only [countP_replicate_eq, Pc.inLockWrite, if_true]
  have h0' := h0
  rw [List.replicate_succ] at h0'
  have t1 : tstep debug ⟨0, 0, true⟩ (Pc.lock_write_85 0) Call.lock_write false
      = some (⟨0, -1, true⟩, Pc.lock_write_100, some (Ret.try_lock_write true)) := by
    simp [tstep, compare_exchange_weak]
  have t2 : tstep debug ⟨0, -1, true⟩ Pc.lock_write_100 Call.lock_write false
      = some (⟨4294967295, -1, true⟩, Pc.writing, some Ret.lock_write) := by
    simp [tstep, udecr, UINT_MOD]
  have s1 := step_at [] (List.replicate k (Pc.lock_write_85 0)) [] _ _ t1
  have s2 := step_at [] (List.replicate k (Pc.lock_write_85 0))
    (pushRet 0 (some (Ret.try_lock_write true)) []) _ _ t2
  simp only [List.nil_append, List.length_nil] at s1 s2
  exact ⟨_, _, _, _, h0, hwait, rfl, h0'.trans (Reachable.of_step s1),
    List.getElem?_cons_zero, rfl, s2, rfl⟩

/-- C13, as stated, fails. With `2 ^ 32` clients inside `lock_write` the waiting-writer
counter is `0`, not their number, and the decrement of the client that then acquires takes it
from `0` to `4294967295`.  And with two clients: client 1 is inside `lock_write` (counter `1`)
when client 0 calls `lock_write`; client 1 acquires, returns and releases, then client 0
acquires and returns; no other writer is waiting at that return and the occupancy counter is
`-1`, but the counter is `0`, not its value `1` from before the call of client 0. -/
theorem waiting_counter_wraps :
    (∃ (s s2 s3 : System) (a : Action),
      Reachable true (System.init true (4294967295 + 1)) s ∧
      s.waiting = 4294967295 + 1 ∧ s.lock.m_write_wait_count = 0 ∧
      Reachable true (System.init true (4294967295 + 1)) s2 ∧
      s2.threads[0]? = some Pc.lock_write_100 ∧ s2.lock.m_write_wait_count = 0 ∧
      step true s2 a = some s3 ∧ s3.lock.m_write_wait_count = 4294967295) ∧
    run true (System.init true 2) [⟨1, Call.lock_write, false⟩]
      = some ⟨⟨1, 0, true⟩, [Pc.idle, Pc.lock_write_85 0], []⟩ ∧
    run true ⟨⟨1, 0, true⟩, [Pc.idle, Pc.lock_write_85 0], []⟩
        [⟨0, Call.lock_write, false⟩, ⟨1, Call.lock_write, false⟩,
         ⟨1, Call.lock_write, false⟩, ⟨1, Call.unlock_write, false⟩,
         ⟨0, Call.lock_write, false⟩, ⟨0, Call.lock_write, false⟩]
      = some ⟨⟨0, -1, true⟩, [Pc.writing, Pc.idle],
          [(0, Ret.lock_write), (0, Ret.try_lock_write true), (1, Ret.unlock_write),
           (1, Ret.lock_write), (1, Ret.try_lock_write true)]⟩ :=
  ⟨waiting_wrap_scenario true 4294967295 (by unfold UINT_MOD; norm_num), by decide, by decide⟩

/-! ## The lock after an unmatched read release -/

theorem lock_read_loop_blocked (spur : Nat → Bool) (w : Nat) (p : Bool) :
    ∀ (fuel n k : Nat), rwlock.lock_read_loop spur fuel n k ⟨w, -1, p⟩ = none := by
  intro fuel
  induction fuel with
  | zero => intro n k; rfl
  | succ fuel ih =>
    intro n k
    have h : rwlock.try_lock_read (spur n) ⟨w, -1, p⟩ = (false, ⟨w, -1, p⟩) := by
      simp [rwlock.try_lock_read]
    rw [rwlock.lock_read_loop, h]
    simp only [ih, Option.map_none']

theorem lock_write_loop_blocked (spur : Nat → Bool) (l : rwlock) (hc : l.m_lock_count ≠ 0) :
    ∀ (fuel n k : Nat), rwlock.lock_write_loop spur fuel n k l = none := by
  intro fuel
  induction fuel with
  | zero => intro n k; rfl
  | succ fuel ih =>
    intro n k
    have h : rwlock.try_lock_write (spur n) l = (false, l) := by
      simp [rwlock.try_lock_write, compare_exchange_weak, hc]
    rw [rwlock.lock_write_loop, h]
    simp only [ih, Option.map_none']

theorem readFailed_holdsWrite (loop : Option Nat) : (readFailed loop).holdsWrite = false := by
  cases loop <;> rfl

set_option maxHeartbeats 4000000 in
/-- While the occupancy is `-1` and nobody holds the lock, no step acquires it. -/
theorem tstep_wedged {debug : Bool} {l l1 : rwlock} {pc pc1 : Pc} {call : Call} {sp : Bool}
    {ev : Option Ret} (h : tstep debug l pc call sp = some (l1, pc1, ev))
    (hc : l.m_lock_count = -1) (hok : pc.casOk) (hnr : pc.notReading = true)
    (hnw : pc.holdsWrite = false) :
    l1.m_lock_count = -1 ∧ pc1.casOk ∧ pc1.notReading = true ∧ pc1.holdsWrite = false ∧
    (ev = none ∨ ev = some (Ret.try_lock_read false) ∨ ev = some (Ret.try_lock_write false)) := by
  cases pc <;> cases call <;>
    simp only [tstep, compare_exchange_weak, reduceCtorEq] at h <;>
    (try split_ifs at h) <;>
    simp only [Option.some.injEq, Prod.mk.injEq] at h <;>
    obtain ⟨rfl, rfl, rfl⟩ := h <;>
    (try simp only [readFailed_notReading, readFailed_holdsWrite, readFailed_casOk]) <;>
    simp_all [Pc.notReading, Pc.holdsWrite, Pc.casOk]
theorem wedged_run {debug p : Bool} {w n : Nat} {s : System}
    (h : Reachable debug ⟨⟨w, -1, p⟩, List.replicate n Pc.idle, []⟩ s) :
    s.lock.m_lock_count = -1 ∧
    (∀ pc ∈ s.threads, pc.casOk ∧ pc.notReading = true ∧ pc.holdsWrite = false) ∧
    (∀ e ∈ s.log, e.2 = Ret.try_lock_read false ∨ e.2 = Ret.try_lock_write false) := by
  obtain ⟨sch, hsch⟩ := h
  refine run_preserves (P := fun s => s.lock.m_lock_count = -1 ∧
      (∀ pc ∈ s.threads, pc.casOk ∧ pc.notReading = true ∧ pc.holdsWrite = false) ∧
      (∀ e ∈ s.log, e.2 = Ret.try_lock_read false ∨ e.2 = Ret.try_lock_write false))
    ?_ sch _ _ ?_ hsch
  · intro s s1 a ⟨hc, hpcs, hlog⟩ hst
    obtain ⟨pc, l1, pc1, ev, hpc, ht, hl, hth, hlg⟩ := step_inv hst
    obtain ⟨hok, hnr, hnw⟩ := hpcs pc (mem_of_getElem? hpc)
    obtain ⟨h1, h2, h3, h4, h5⟩ := tstep_wedged ht hc hok hnr hnw
    refine ⟨by rw [hl]; exact h1, ?_, ?_⟩
    · intro x hx
      rw [hth] at hx
      rcases mem_set_of pc1 s.threads a.tid x hx with rfl | hx
      · exact ⟨h2, h3, h4⟩
      · exact hpcs x hx
    · intro e he
      rw [hlg] at he
      rcases h5 with rfl | rfl | rfl
      · exact hlog e he
      · simp only [pushRet, List.mem_cons] at he
        rcases he with rfl | he
        · exact Or.inl rfl
        · exact hlog e he
      · simp only [pushRet, List.mem_cons] at he
        rcases he with rfl | he
        · exact Or.inr rfl
        · exact hlog e he
  · refine ⟨rfl, ?_, ?_⟩
    · intro pc hpc
      simp only [List.mem_replicate] at hpc
      rw [hpc.2]
      exact ⟨trivial, rfl, rfl⟩
    · intro e he
      simp at he

/-- C14. An unmatched read release wedges the lock. On a lock with occupancy `0`,
`unlock_read` leaves occupancy `-1` in either build, the debug build raising the error after
the decrement is done.  In that state every `try_lock_read` and every `try_lock_write`
returns `false` and leaves the lock unchanged, `lock_read` and `lock_write` do not return
whatever the fuel, and among any number of clients making well-matched calls the occupancy
stays `-1`, nobody holds the lock and every completed attempt has returned `false`.
`unlock_write` puts the occupancy back to `0`, after which `lock_write` returns, and so does
`lock_read` unless writer priority defers it to a waiting writer. -/
theorem unmatched_release_wedges (debug p : Bool) (w : Nat) :
    (rwlock.unlock_read debug ⟨w, 0, p⟩).2 = ⟨w, -1, p⟩ ∧
    (rwlock.unlock_read true ⟨w, 0, p⟩).1 = some Exn.runtime_error ∧
    (rwlock.unlock_read false ⟨w, 0, p⟩).1 = none ∧
    (∀ sp, rwlock.try_lock_read sp ⟨w, -1, p⟩ = (false, ⟨w, -1, p⟩)) ∧
    (∀ sp, rwlock.try_lock_write sp ⟨w, -1, p⟩ = (false, ⟨w, -1, p⟩)) ∧
    (∀ spur fuel, rwlock.lock_read spur fuel ⟨w, -1, p⟩ = none) ∧
    (∀ spur fuel, rwlock.lock_write spur fuel ⟨w, -1, p⟩ = none) ∧
    (∀ (n : Nat) (s : System),
      Reachable debug ⟨⟨w, -1, p⟩, List.replicate n Pc.idle, []⟩ s →
      s.lock.m_lock_count = -1 ∧ s.readers = 0 ∧ s.writers = 0 ∧
      ∀ e ∈ s.log, e.2 = Ret.try_lock_read false ∨ e.2 = Ret.try_lock_write false) ∧
    rwlock.unlock_write ⟨w, -1, p⟩ = ⟨w, 0, p⟩ ∧
    (∀ spur fuel, (∃ m, m < fuel ∧ spur m = false) →
      ∃ l1 ps, rwlock.lock_write spur fuel (rwlock.unlock_write ⟨w, -1, p⟩) = some (l1, ps)) ∧
    (∀ spur fuel, (p = false ∨ w = 0) → (∃ m, m < fuel ∧ spur m = false) →
      ∃ l1 ps, rwlock.lock_read spur fuel (rwlock.unlock_write ⟨w, -1, p⟩) = some (l1, ps)) := by
  have e1 : wrapInt (0 - 1) = -1 := by decide
  refine ⟨?_, ?_, ?_, ?_, ?_, ?_, ?_, ?_, rfl, ?_, ?_⟩
  · rw [unlock_read_snd]
    simp only [e1]
  · unfold rwlock.unlock_read
    simp only [e1]
    rfl
  · unfold rwlock.unlock_read
    simp
  · intro sp
    simp [rwlock.try_lock_read]
  · intro sp
    simp [rwlock.try_lock_write, compare_exchange_weak]
  · intro spur fuel
    exact lock_read_loop_blocked spur w p fuel 0 0
  · intro spur fuel
    have hb := lock_write_loop_blocked spur ⟨uincr w, -1, p⟩ (by simp) fuel 0 0
    unfold rwlock.lock_write
    simp only [hb, Option.map_none']
  · intro n s hs
    obtain ⟨hc, hpcs, hlog⟩ := wedged_run hs
    refine ⟨hc, ?_, ?_, hlog⟩
    · unfold System.readers
      rw [List.countP_eq_zero]
      intro pc hpc
      have := (hpcs pc hpc).2.1
      cases pc <;> simp_all [Pc.notReading, Pc.holdsRead]
    · unfold System.writers
      rw [List.countP_eq_zero]
      intro pc hpc
      have := (hpcs pc hpc).2.2
      simp [this]
  · intro spur fuel ⟨m, hm, hs⟩
    obtain ⟨ps, hps⟩ := lock_write_loop_acquires spur (uincr w) p fuel 0 0
      ⟨m, by omega, by omega, hs⟩
    exact ⟨⟨udecr (uincr w), -1, p⟩, ps, by
      unfold rwlock.lock_write rwlock.unlock_write
      simp only [hps, Option.map_some']⟩
  · intro spur fuel hp ⟨m, hm, hs⟩
    obtain ⟨ps, hps⟩ := lock_read_loop_acquires spur w 0 p (by decide) hp fuel 0 0
      ⟨m, by omega, by omega, hs⟩
    exact ⟨_, ps, hps⟩

end zdb2
